import Mathlib

/-!
# Verification of the saus deploy reconciliation engine

Shallow embedding of `src/deploy.ts` (the declarative deployment
reconciliation engine) and proofs about the claims of its specification.

The embedding models JavaScript values as the inductive type `Value`,
translates the diff engine (`diffObjects`, `equalArrays`, `isPlainObject`)
directly from the source, and models the `deploy` run as a deterministic
function over an explicit input record (prior target store, plugins,
declared targets, flags).  The declaration queue of `addTarget` /
`context.addTarget` is additionally modelled as a nondeterministic
small-step system to reason about arbitrary promise-resolution orders.
-/

namespace Saus

/-- JavaScript values, as far as the deploy engine observes them:
`undefined`, `null`, booleans, numbers, strings, plain objects
(ordered key/value fields) and arrays. -/
inductive Value where
  | vUndef : Value
  | vNull : Value
  | vBool (b : Bool) : Value
  | vNum (n : Int) : Value
  | vStr (s : String) : Value
  | vObj (fields : List (String × Value)) : Value
  | vArr (elems : List Value) : Value
deriving Repr

mutual

def Value.hasDecEq : (a b : Value) → Decidable (a = b)
  | .vUndef, .vUndef => isTrue rfl
  | .vNull, .vNull => isTrue rfl
  | .vBool a, .vBool b =>
    match decEq a b with
    | isTrue h => isTrue (by rw [h])
    | isFalse h => isFalse (by simp only [Value.vBool.injEq]; exact h)
  | .vNum a, .vNum b =>
    match decEq a b with
    | isTrue h => isTrue (by rw [h])
    | isFalse h => isFalse (by simp only [Value.vNum.injEq]; exact h)
  | .vStr a, .vStr b =>
    match decEq a b with
    | isTrue h => isTrue (by rw [h])
    | isFalse h => isFalse (by simp only [Value.vStr.injEq]; exact h)
  | .vObj f1, .vObj f2 =>
    match Value.hasDecEqFields f1 f2 with
    | isTrue h => isTrue (by rw [h])
    | isFalse h => isFalse (by simp only [Value.vObj.injEq]; exact h)
  | .vArr e1, .vArr e2 =>
    match Value.hasDecEqElems e1 e2 with
    | isTrue h => isTrue (by rw [h])
    | isFalse h => isFalse (by simp only [Value.vArr.injEq]; exact h)
  | .vUndef, .vNull | .vUndef, .vBool _ | .vUndef, .vNum _ | .vUndef, .vStr _
  | .vUndef, .vObj _ | .vUndef, .vArr _
  | .vNull, .vUndef | .vNull, .vBool _ | .vNull, .vNum _ | .vNull, .vStr _
  | .vNull, .vObj _ | .vNull, .vArr _
  | .vBool _, .vUndef | .vBool _, .vNull | .vBool _, .vNum _ | .vBool _, .vStr _
  | .vBool _, .vObj _ | .vBool _, .vArr _
  | .vNum _, .vUndef | .vNum _, .vNull | .vNum _, .vBool _ | .vNum _, .vStr _
  | .vNum _, .vObj _ | .vNum _, .vArr _
  | .vStr _, .vUndef | .vStr _, .vNull | .vStr _, .vBool _ | .vStr _, .vNum _
  | .vStr _, .vObj _ | .vStr _, .vArr _
  | .vObj _, .vUndef | .vObj _, .vNull | .vObj _, .vBool _ | .vObj _, .vNum _
  | .vObj _, .vStr _ | .vObj _, .vArr _
  | .vArr _, .vUndef | .vArr _, .vNull | .vArr _, .vBool _ | .vArr _, .vNum _
  | .vArr _, .vStr _ | .vArr _, .vObj _ => isFalse (by intro h; exact Value.noConfusion h)

def Value.hasDecEqFields : (a b : List (String × Value)) → Decidable (a = b)
  | [], [] => isTrue rfl
  | [], _ :: _ => isFalse (by intro h; exact List.noConfusion h)
  | _ :: _, [] => isFalse (by intro h; exact List.noConfusion h)
  | (k1, v1) :: r1, (k2, v2) :: r2 =>
    match decEq k1 k2 with
    | isFalse h => isFalse (fun he => by
        injection he with h1 h2
        injection h1 with hk hv
        exact h hk)
    | isTrue hk =>
      match Value.hasDecEq v1 v2 with
      | isFalse h => isFalse (fun he => by
          injection he with h1 h2
          injection h1 with hk hv
          exact h hv)
      | isTrue hv =>
        match Value.hasDecEqFields r1 r2 with
        | isFalse h => isFalse (fun he => by
            injection he with h1 h2
            exact h h2)
        | isTrue hr => isTrue (by rw [hk, hv, hr])

def Value.hasDecEqElems : (a b : List Value) → Decidable (a = b)
  | [], [] => isTrue rfl
  | [], _ :: _ => isFalse (by intro h; exact List.noConfusion h)
  | _ :: _, [] => isFalse (by intro h; exact List.noConfusion h)
  | v1 :: r1, v2 :: r2 =>
    match Value.hasDecEq v1 v2 with
    | isFalse h => isFalse (fun he => by
        injection he with h1 h2
        exact h h1)
    | isTrue hv =>
      match Value.hasDecEqElems r1 r2 with
      | isFalse h => isFalse (fun he => by
          injection he with h1 h2
          exact h h2)
      | isTrue hr => isTrue (by rw [hv, hr])

end

instance : DecidableEq Value := Value.hasDecEq

/-- A value of a ChangeSet entry: `true` (changed leaf) in the source is
`leaf`; a nested changed-record is `nested`. -/
inductive ChangeVal where
  | leaf : ChangeVal
  | nested (cs : List (String × ChangeVal)) : ChangeVal
deriving Repr

mutual

def ChangeVal.hasDecEq : (a b : ChangeVal) → Decidable (a = b)
  | .leaf, .leaf => isTrue rfl
  | .leaf, .nested _ => isFalse (fun h => ChangeVal.noConfusion h)
  | .nested _, .leaf => isFalse (fun h => ChangeVal.noConfusion h)
  | .nested c1, .nested c2 =>
    match ChangeVal.hasDecEqList c1 c2 with
    | isTrue h => isTrue (by rw [h])
    | isFalse h => isFalse (by simp only [ChangeVal.nested.injEq]; exact h)

def ChangeVal.hasDecEqList : (a b : List (String × ChangeVal)) → Decidable (a = b)
  | [], [] => isTrue rfl
  | [], _ :: _ => isFalse (fun h => List.noConfusion h)
  | _ :: _, [] => isFalse (fun h => List.noConfusion h)
  | (k1, v1) :: r1, (k2, v2) :: r2 =>
    match decEq k1 k2 with
    | isFalse h => isFalse (fun he => by
        injection he with h1 h2
        injection h1 with hk hv
        exact h hk)
    | isTrue hk =>
      match ChangeVal.hasDecEq v1 v2 with
      | isFalse h => isFalse (fun he => by
          injection he with h1 h2
          injection h1 with hk hv
          exact h hv)
      | isTrue hv =>
        match ChangeVal.hasDecEqList r1 r2 with
        | isFalse h => isFalse (fun he => by
            injection he with h1 h2
            exact h h2)
        | isTrue hr => isTrue (by rw [hk, hv, hr])

end

instance : DecidableEq ChangeVal := ChangeVal.hasDecEq

/-- The ChangeSet record built by `diffObjects` (ordered, as JS objects
preserve insertion order). -/
abbrev ChangeSet := List (String × ChangeVal)

/-- Source `isPlainObject`: `value !== null && typeof value == 'object'`.
Note that JavaScript arrays also have `typeof == 'object'`, so arrays
satisfy this predicate. -/
def isPlainObject : Value → Bool
  | .vObj _ => true
  | .vArr _ => true
  | _ => false

/-- `Array.isArray`. -/
def isArray : Value → Bool
  | .vArr _ => true
  | _ => false

/-- A canonical array index: `"0"`, `"1"`, ... (the keys `for..in`
enumerates on an array). -/
def canonIdx (s : String) : Option Nat :=
  match s.toNat? with
  | some n => if toString n = s then some n else none
  | none => none

/-- The own enumerable keys of a value, in `for..in` order: field names of
an object, index strings of an array, nothing otherwise. -/
def jsKeys : Value → List String
  | .vObj fields => fields.map Prod.fst
  | .vArr elems => (List.range elems.length).map (fun i => toString i)
  | _ => []

/-- JavaScript property read `v[k]` (as used by the diff engine);
missing properties read as `undefined`. -/
def jsGet : Value → String → Value
  | .vObj fields, k => (fields.lookup k).getD .vUndef
  | .vArr elems, k => (canonIdx k).elim .vUndef (fun i => elems.getD i .vUndef)
  | _, _ => (.vUndef)

/-- JavaScript `k in v` for the values reaching the diff engine: key
membership among the own enumerable keys. -/
def jsHas (v : Value) (k : String) : Bool :=
  (jsKeys v).contains k

theorem sizeOf_lookup_lt {fields : List (String × Value)} {k : String}
    {v : Value} (h : fields.lookup k = some v) :
    sizeOf v < 1 + sizeOf fields := by
  induction fields with
  | nil => simp [List.lookup] at h
  | cons p rest ih =>
    obtain ⟨a, b⟩ := p
    simp only [List.lookup] at h
    by_cases hk : k == a
    · simp [hk] at h
      subst h
      simp only [List.cons.sizeOf_spec, Prod.mk.sizeOf_spec]
      omega
    · simp [hk] at h
      have := ih h
      simp only [List.cons.sizeOf_spec]
      omega

theorem sizeOf_getD_lt {elems : List Value} {i : Nat}
    (h : elems.getD i Value.vUndef ≠ Value.vUndef) :
    sizeOf (elems.getD i Value.vUndef) < 1 + sizeOf elems := by
  have hmem : elems.getD i Value.vUndef ∈ elems := by
    by_cases hi : i < elems.length
    · rw [List.getD_eq_getElem _ _ hi]
      exact elems.getElem_mem hi
    · exfalso
      apply h
      have hn : elems[i]? = none := by
        rw [List.getElem?_eq_none_iff]
        omega
      simp [List.getD, hn]
  have := List.sizeOf_lt_of_mem hmem
  omega

/-- The value read at a key of a composite value is strictly smaller
whenever it is itself a plain object (needed for termination of the
diff recursion). -/
theorem sizeOf_jsGet_lt (v : Value) (k : String)
    (h : isPlainObject (jsGet v k) = true) :
    sizeOf (jsGet v k) < sizeOf v := by
  cases v with
  | vObj fields =>
    simp only [jsGet] at h ⊢
    cases hl : fields.lookup k with
    | none => simp [hl, isPlainObject] at h
    | some w =>
      simp only [hl, Option.getD_some] at h ⊢
      have := sizeOf_lookup_lt hl
      simp only [Value.vObj.sizeOf_spec]
      omega
  | vArr elems =>
    simp only [jsGet] at h ⊢
    cases hc : canonIdx k with
    | none => simp [hc, isPlainObject] at h
    | some i =>
      simp only [hc, Option.elim_some] at h ⊢
      have hne : elems.getD i Value.vUndef ≠ Value.vUndef := by
        intro he
        rw [he] at h
        simp [isPlainObject] at h
      have := sizeOf_getD_lt hne
      simp only [Value.vArr.sizeOf_spec]
      omega
  | vUndef => simp [jsGet, isPlainObject] at h
  | vNull => simp [jsGet, isPlainObject] at h
  | vBool b => simp [jsGet, isPlainObject] at h
  | vNum n => simp [jsGet, isPlainObject] at h
  | vStr s => simp [jsGet, isPlainObject] at h

/-- The element list of an array value (empty for non-arrays). -/
def Value.arrElems : Value → List Value
  | .vArr elems => elems
  | _ => []

theorem sizeOf_arrElems_lt (v : Value) (h : isArray v = true) :
    sizeOf v.arrElems < sizeOf v := by
  cases v <;> simp_all [isArray, Value.arrElems]

theorem isPlainObject_of_isArray (v : Value) (h : isArray v = true) :
    isPlainObject v = true := by
  cases v <;> simp_all [isArray, isPlainObject]

theorem sizeOf_arrElems_jsGet_lt (v : Value) (k : String)
    (h : isArray (jsGet v k) = true) :
    sizeOf (jsGet v k).arrElems < sizeOf v :=
  lt_trans (sizeOf_arrElems_lt _ h)
    (sizeOf_jsGet_lt _ _ (isPlainObject_of_isArray _ h))

/-- The key list iterated by `diffObjects`: first `for (const key in
values)`, then `for (const key in oldValues) if (!(key in values))`. -/
def diffKeys (oldV newV : Value) : List String :=
  jsKeys newV ++ (jsKeys oldV).filter (fun k => !(jsHas newV k))

mutual

/-- Source `diffObjects(oldValues, values, changed)`: returns the final
contents of the `changed` record together with the `differs` flag. -/
def diffObjects (oldV newV : Value) : ChangeSet × Bool :=
  diffList oldV newV (diffKeys oldV newV) [] false
termination_by (sizeOf oldV + sizeOf newV, 3, 0)
decreasing_by
  all_goals simp_wf
  all_goals
    first
    | (apply Prod.Lex.right
       first
       | (apply Prod.Lex.left
          omega)
       | (apply Prod.Lex.right
          omega))
    | (apply Prod.Lex.left
       first
       | omega
       | (simp only [Bool.and_eq_true] at h
          have g1 := sizeOf_jsGet_lt _ _ h.1
          have g2 := sizeOf_jsGet_lt _ _ h.2
          omega)
       | (simp only [Bool.and_eq_true] at h2
          first
          | (have g1 := sizeOf_arrElems_jsGet_lt _ _ h2.1
             have g2 := sizeOf_arrElems_jsGet_lt _ _ h2.2
             omega)
          | (have g1 := sizeOf_arrElems_lt _ h2.1
             have g2 := sizeOf_arrElems_lt _ h2.2
             omega)))

/-- The body of the `diff` closure, iterated over the key list with the
accumulated `changed` record and `differs` flag. -/
def diffList (oldV newV : Value) (ks : List String)
    (changed : ChangeSet) (differs : Bool) : ChangeSet × Bool :=
  match ks with
  | [] => (changed, differs)
  | k :: rest =>
    let oldValue := jsGet oldV k
    let value := jsGet newV k
    if h : isPlainObject oldValue && isPlainObject value then
      let sub := diffObjects oldValue value
      diffList oldV newV rest (changed ++ [(k, ChangeVal.nested sub.1)])
        (differs || sub.2)
    else if h2 : isArray oldValue && isArray value then
      if !equalArrays oldValue.arrElems value.arrElems then
        diffList oldV newV rest (changed ++ [(k, ChangeVal.leaf)]) true
      else
        diffList oldV newV rest changed differs
    else if oldValue ≠ value then
      diffList oldV newV rest (changed ++ [(k, ChangeVal.leaf)]) true
    else
      diffList oldV newV rest changed differs
termination_by (sizeOf oldV + sizeOf newV, 0, ks.length)
decreasing_by
  all_goals simp_wf
  all_goals
    first
    | (apply Prod.Lex.right
       first
       | (apply Prod.Lex.left
          omega)
       | (apply Prod.Lex.right
          omega))
    | (apply Prod.Lex.left
       first
       | omega
       | (simp only [Bool.and_eq_true] at h
          have g1 := sizeOf_jsGet_lt _ _ h.1
          have g2 := sizeOf_jsGet_lt _ _ h.2
          omega)
       | (simp only [Bool.and_eq_true] at h2
          first
          | (have g1 := sizeOf_arrElems_jsGet_lt _ _ h2.1
             have g2 := sizeOf_arrElems_jsGet_lt _ _ h2.2
             omega)
          | (have g1 := sizeOf_arrElems_lt _ h2.1
             have g2 := sizeOf_arrElems_lt _ h2.2
             omega)))

/-- Source `equalArrays(oldValues, values)`. -/
def equalArrays (oldValues values : List Value) : Bool :=
  if oldValues.length ≠ values.length then false
  else equalArraysAux oldValues values
termination_by (sizeOf oldValues + sizeOf values, 2, 0)
decreasing_by
  all_goals simp_wf
  all_goals
    first
    | (apply Prod.Lex.right
       first
       | (apply Prod.Lex.left
          omega)
       | (apply Prod.Lex.right
          omega))
    | (apply Prod.Lex.left
       first
       | omega
       | (simp only [Bool.and_eq_true] at h
          have g1 := sizeOf_jsGet_lt _ _ h.1
          have g2 := sizeOf_jsGet_lt _ _ h.2
          omega)
       | (simp only [Bool.and_eq_true] at h2
          first
          | (have g1 := sizeOf_arrElems_jsGet_lt _ _ h2.1
             have g2 := sizeOf_arrElems_jsGet_lt _ _ h2.2
             omega)
          | (have g1 := sizeOf_arrElems_lt _ h2.1
             have g2 := sizeOf_arrElems_lt _ h2.2
             omega)))

/-- The element loop of `equalArrays`. -/
def equalArraysAux (oldValues values : List Value) : Bool :=
  match oldValues, values with
  | oldValue :: os, value :: vs =>
    if h : isPlainObject oldValue && isPlainObject value then
      if (diffObjects oldValue value).2 then false
      else equalArraysAux os vs
    else if h2 : isArray oldValue && isArray value then
      if !equalArrays oldValue.arrElems value.arrElems then false
      else equalArraysAux os vs
    else if oldValue ≠ value then false
    else equalArraysAux os vs
  | _, _ => true
termination_by (sizeOf oldValues + sizeOf values, 1, 0)
decreasing_by
  all_goals simp_wf
  all_goals
    first
    | (apply Prod.Lex.right
       first
       | (apply Prod.Lex.left
          omega)
       | (apply Prod.Lex.right
          omega))
    | (apply Prod.Lex.left
       first
       | omega
       | (simp only [Bool.and_eq_true] at h
          have g1 := sizeOf_jsGet_lt _ _ h.1
          have g2 := sizeOf_jsGet_lt _ _ h.2
          omega)
       | (simp only [Bool.and_eq_true] at h2
          first
          | (have g1 := sizeOf_arrElems_jsGet_lt _ _ h2.1
             have g2 := sizeOf_arrElems_jsGet_lt _ _ h2.2
             omega)
          | (have g1 := sizeOf_arrElems_lt _ h2.1
             have g2 := sizeOf_arrElems_lt _ h2.2
             omega)))

end


/-! ## Spec-side deep equality (for the diff-correctness claim)

`specDeepEq` is written from the specification's words, not from the
source: "deep equality, key-order independent", recursing through nested
objects ("two composites differ if any key differs, including keys present
only on one side"), comparing arrays element-wise with differing lengths
counted as a change, and leaves by exact equality.  An object and an array
are structurally different kinds of value, so they are never equal. -/

theorem sizeOf_jsGet_obj_lt (f : List (String × Value)) (k : String) :
    sizeOf (jsGet (Value.vObj f) k) < 1 + sizeOf f := by
  simp only [jsGet]
  cases hl : f.lookup k with
  | none =>
    have : sizeOf f > 0 := by cases f <;> simp <;> omega
    simp only [Option.getD_none]
    simp only [Value.vUndef.sizeOf_spec]
    omega
  | some w =>
    simp only [Option.getD_some]
    exact sizeOf_lookup_lt hl

mutual

def specDeepEq (a b : Value) : Bool :=
  match a, b with
  | .vObj f1, .vObj f2 =>
    (f1.map Prod.fst ++ f2.map Prod.fst).all (fun k =>
      specDeepEq (jsGet (.vObj f1) k) (jsGet (.vObj f2) k))
  | .vArr e1, .vArr e2 =>
    e1.length == e2.length && specArrEq e1 e2
  | a, b => a == b
termination_by (sizeOf a + sizeOf b, 1)
decreasing_by
  all_goals simp_wf
  all_goals
    first
    | (apply Prod.Lex.right
       omega)
    | (apply Prod.Lex.left
       first
       | omega
       | (have g1 := sizeOf_jsGet_obj_lt f1 k
          have g2 := sizeOf_jsGet_obj_lt f2 k
          omega))

def specArrEq (xs ys : List Value) : Bool :=
  match xs, ys with
  | x :: xr, y :: yr => specDeepEq x y && specArrEq xr yr
  | _, _ => true
termination_by (sizeOf xs + sizeOf ys, 0)
decreasing_by
  all_goals simp_wf
  all_goals
    first
    | (apply Prod.Lex.right
       omega)
    | (apply Prod.Lex.left
       first
       | omega
       | (have g1 := sizeOf_jsGet_obj_lt f1 k
          have g2 := sizeOf_jsGet_obj_lt f2 k
          omega))

end

/-! ## The deploy engine model

The remainder of `src/deploy.ts` is modelled as a deterministic function.
JavaScript object mutation (`Object.assign(target, pulled)` mutating the
declared object in place) is modelled with an explicit heap of objects
indexed by object ids; a declaration is either an already-constructed
object (`plain oid`) or a promise resolving to object `oid` (`promiseV
oid`).  Plugin capabilities are pure functions; spawn/update/kill return
either a revert-function id or a thrown error, and the behavior of each
revert function (succeed or throw) is given by `revertBeh`. -/

/-- The result of awaiting one spawn/update/kill call: either it returned
a revert function (or `undefined`), or it threw. -/
inductive ActRes where
  | ok (revert : Option Nat) : ActRes
  | err (e : String) : ActRes
deriving DecidableEq, Repr

/-- A deploy plugin (provider): `src/core/deploy` + the capability calls
made by `deploy.ts`.  `hasUpdate` tells whether the optional `update`
capability is present (`if (plugin.update)`). -/
structure PluginM where
  name : String
  pull : Option (Value → Option Value)
  identify : Value → Value
  hasUpdate : Bool
  spawn : Value → ActRes
  update : Value → ChangeSet → ActRes
  kill : Value → ActRes

/-- One provider record of the persisted Target Store (`targets.yaml`):
`{ hook, targets }`. -/
structure StoreEntry where
  hook : String
  targets : List Value
deriving DecidableEq, Repr

/-- The Target Store: provider name to record, in file order. -/
abbrev Store := List (String × StoreEntry)

/-- A value written to the new Target Store snapshot: either a plain value,
or the still-unresolved promise object a declaration passed (which is what
`targets` holds for a promise declaration). -/
inductive SnapVal where
  | val (v : Value) : SnapVal
  | promiseObj (oid : Nat) : SnapVal
deriving DecidableEq, Repr

/-- One provider record of the new snapshot (`newTargetCache`). -/
structure SnapEntry where
  hook : String
  targets : List SnapVal
deriving DecidableEq, Repr

/-- The new Target Store snapshot. -/
abbrev Snapshot := List (String × SnapEntry)

/-- How a target was declared: as an already-constructed object, or as a
promise that resolves to object `oid`. -/
inductive DeclKind where
  | plain (oid : Nat) : DeclKind
  | promiseV (oid : Nat) : DeclKind
deriving DecidableEq, Repr

/-- The object id a declaration resolves to. -/
def DeclKind.oid : DeclKind → Nat
  | .plain i => i
  | .promiseV i => i

/-- One target declaration (`addDeployTarget(hook, target)`); the hook
reference is identified with the plugin name it loads. -/
structure DeclM where
  hook : String
  kind : DeclKind
deriving DecidableEq, Repr

/-- Observable events of a run, in order. -/
inductive Ev where
  | lockCreate : Ev
  | spawnEv (plugin : String) (t : Value) (res : ActRes) : Ev
  | updateEv (plugin : String) (t : Value) (changes : ChangeSet) (res : ActRes) : Ev
  | killEv (plugin : String) (t : Value) (res : ActRes) : Ev
  | warnNoRevert (plugin action : String) : Ev
  | errLog (e : String) : Ev
  | revertEv (id : Nat) : Ev
  | noActionInfo : Ev
  | debugWrite (snap : Snapshot) : Ev
  | storeWrite (snap : Snapshot) : Ev
  | lockDelete : Ev
deriving DecidableEq, Repr

/-- How a run ends: normal return, a thrown error, or it never returns
(the `await (deploying = defer())` promise is never resolved). -/
inductive Outcome where
  | success : Outcome
  | errOut (e : String) : Outcome
  | hang : Outcome
deriving DecidableEq, Repr

/-- The input of one `deploy` run. -/
structure Inp where
  dryRun : Bool
  gitClean : Bool
  lockExists : Bool
  store : Store
  plugins : List PluginM
  heap : List Value
  decls : List DeclM
  revertBeh : Nat → Option String

/-- The observation of one `deploy` run. -/
structure RunResult where
  trace : List Ev
  outcome : Outcome
  lockHeld : Bool

/-- Modelled from the spec: `toObjectHash` (`src/utils/objectHash.ts` is
not among the provided sources).  The spec describes target identity as "a
stable hash of a provider-chosen subset of its fields"; the hash is
modelled as the identity-field value itself, so that hash equality is
structural equality of the identity fields. -/
def toObjectHash (v : Value) : Value := v

/-- JavaScript property write `obj[k] = v`: replaces an existing key in
place, appends a new key. -/
def setKey : List (String × Value) → String → Value → List (String × Value)
  | [], k, v => [(k, v)]
  | (k1, v1) :: rest, k, v =>
    if k1 = k then (k1, v) :: rest else (k1, v1) :: setKey rest k v

/-- `Object.assign(target, pulled)`: copies the own enumerable fields of
`pulled` onto `target` in order. -/
def objectAssign : Value → Value → Value
  | .vObj fs, .vObj ps => .vObj (ps.foldl (fun acc kv => setKey acc kv.1 kv.2) fs)
  | t, _ => t

/-- Lines 106-111 of `deploy.ts`: `if (plugin.pull) { const pulled = await
plugin.pull(target); if (pulled) Object.assign(target, pulled) }`. -/
def applyPullTo (p : PluginM) (v : Value) : Value :=
  match p.pull with
  | some f =>
    match f v with
    | some pulled => objectAssign v pulled
    | none => v
  | none => v

/-- Mutable run state threaded through the apply and kill phases:
the event trace, `revertFns`, `updatedTargets`, `addedTargets`,
`reusedTargets` (a saved target is identified by its provider name and its
index in that provider record, which stands for its object reference), and
the heap of declared objects. -/
structure St where
  trace : List Ev
  revertFns : List Nat
  updatedTargets : List Value
  addedTargets : List Value
  reused : List (String × Nat)
  heap : List Value

/-- Source `addRevertFn`: pushes the revert function when one was
returned; otherwise warns unless the run is a dry run. -/
def addRevertFn (dryRun : Bool) (st : St) (revert : Option Nat)
    (plugin : PluginM) (action : String) : St :=
  match revert with
  | some id => { st with revertFns := st.revertFns ++ [id] }
  | none =>
    if !dryRun then
      { st with trace := st.trace ++ [Ev.warnNoRevert plugin.name action] }
    else st

/-- One `revert = await plugin.X(...)` call followed by `addRevertFn`:
records the invocation event, then pushes the returned revert function
(or warns). -/
def emitAction (dryRun : Bool) (st : St) (ev : Ev) (revert : Option Nat)
    (plugin : PluginM) (action : String) : St :=
  addRevertFn dryRun { st with trace := st.trace ++ [ev] } revert plugin action

/-- Source `findSavedTarget`: reads `targetCache[plugin.name].targets`
(a TypeError when the store has no record for the plugin name) and returns
the first saved target whose identity hash matches, with its index. -/
def findSavedTarget (store : Store) (plugin : PluginM) (tid : Value) :
    Except String (Option (Nat × Value)) :=
  match store.lookup plugin.name with
  | none => .error "TypeError: cannot read targets of undefined"
  | some entry =>
    .ok ((entry.targets.enum.find? (fun p =>
      toObjectHash (plugin.identify p.2) == tid)))

/-- What `addTarget` did for one declaration: ran its action and reached
the index-advance block; returned early on "Nothing changed" (skipping the
advance block); or threw. -/
inductive StepOut where
  | advanced : StepOut
  | unchangedHalt : StepOut
  | failed (e : String) : StepOut
deriving DecidableEq, Repr

/-- Source `addTarget` (lines 98-158) for one declaration: resolve the
declared value, pull, identify, look up the saved target, diff, and
spawn/update/kill as required, recording revert functions. -/
def applyOne (dryRun : Bool) (store : Store) (plugins : List PluginM)
    (st : St) (d : DeclM) : St × StepOut :=
  match plugins.find? (fun p => p.name == d.hook) with
  | none => (st, .failed "failed to load deploy plugin")
  | some plugin =>
    let oid := d.kind.oid
    let v1 := applyPullTo plugin (st.heap.getD oid .vUndef)
    let st := { st with heap := st.heap.set oid v1 }
    let tid := toObjectHash (plugin.identify v1)
    match findSavedTarget store plugin tid with
    | .error e => (st, .failed e)
    | .ok none =>
      match plugin.spawn v1 with
      | .ok r =>
        let st := emitAction dryRun st (Ev.spawnEv plugin.name v1 (.ok r)) r plugin "spawn"
        ({ st with addedTargets := st.addedTargets ++ [v1] }, .advanced)
      | .err e =>
        ({ st with trace := st.trace ++ [Ev.spawnEv plugin.name v1 (.err e)] }, .failed e)
    | .ok (some (i, savedTarget)) =>
      let st := { st with reused := st.reused ++ [(plugin.name, i)] }
      let changed := diffObjects savedTarget v1
      if !changed.2 then
        (st, .unchangedHalt)
      else if plugin.hasUpdate then
        match plugin.update v1 changed.1 with
        | .ok r =>
          let st := emitAction dryRun st (Ev.updateEv plugin.name v1 changed.1 (.ok r)) r plugin "update"
          ({ st with updatedTargets := st.updatedTargets ++ [v1] }, .advanced)
        | .err e =>
          ({ st with trace := st.trace ++ [Ev.updateEv plugin.name v1 changed.1 (.err e)] }, .failed e)
      else
        match plugin.kill savedTarget with
        | .ok r =>
          let st := emitAction dryRun st (Ev.killEv plugin.name savedTarget (.ok r)) r plugin "kill"
          match plugin.spawn v1 with
          | .ok r2 =>
            let st := emitAction dryRun st (Ev.spawnEv plugin.name v1 (.ok r2)) r2 plugin "spawn"
            ({ st with updatedTargets := st.updatedTargets ++ [v1] }, .advanced)
          | .err e =>
            ({ st with trace := st.trace ++ [Ev.spawnEv plugin.name v1 (.err e)] }, .failed e)
        | .err e =>
          ({ st with trace := st.trace ++ [Ev.killEv plugin.name savedTarget (.err e)] }, .failed e)

/-- How the whole apply phase ends: every declaration advanced the queue
(`deploying` can be resolved); the queue stalled on a "Nothing changed"
early return (cursor never advances again); or a declaration threw. -/
inductive ApplyOut where
  | drained : ApplyOut
  | halted : ApplyOut
  | failedOut (e : String) : ApplyOut
deriving DecidableEq, Repr

/-- The declaration queue drained in declaration order (the order is
established separately by the queue model below): each declaration is
processed by `addTarget`; an early "Nothing changed" return skips the
cursor-advance block at lines 147-157, so no later declaration is ever
dispatched. -/
def applyAll (dryRun : Bool) (store : Store) (plugins : List PluginM) :
    St → List DeclM → St × ApplyOut
  | st, [] => (st, .drained)
  | st, d :: rest =>
    match applyOne dryRun store plugins st d with
    | (st2, .advanced) => applyAll dryRun store plugins st2 rest
    | (st2, .unchangedHalt) => (st2, .halted)
    | (st2, .failed e) => (st2, .failedOut e)

/-- The killable targets of one provider record: every saved target not
marked reused, in order. -/
def killablesOfEntry (plugin : PluginM) (name : String)
    (reused : List (String × Nat)) (targets : List Value) :
    List (PluginM × Value) :=
  targets.enum.filterMap (fun p =>
    if (name, p.1) ∈ reused then none else some (plugin, p.2))

/-- Source `getKillableTargets`: walks the prior store in record order and
collects every target not reused this run. -/
def getKillableTargets (plugins : List PluginM)
    (reused : List (String × Nat)) :
    Store → Except String (List (PluginM × Value))
  | [] => .ok []
  | (name, state) :: rest =>
    match plugins.find? (fun p => p.name == name) with
    | none => .error "failed to load deploy plugin"
    | some plugin =>
      match getKillableTargets plugins reused rest with
      | .error e => .error e
      | .ok ks => .ok (killablesOfEntry plugin name reused state.targets ++ ks)

/-- The kill loop of lines 198-202: kills each killable target in order,
recording revert functions; a throw aborts the loop. -/
def killPhase (dryRun : Bool) :
    St → List (PluginM × Value) → St × Option String
  | st, [] => (st, none)
  | st, (plugin, target) :: rest =>
    match plugin.kill target with
    | .ok r =>
      killPhase dryRun (emitAction dryRun st (Ev.killEv plugin.name target (.ok r)) r plugin "kill") rest
    | .err e =>
      ({ st with trace := st.trace ++ [Ev.killEv plugin.name target (.err e)] }, some e)

/-- The snapshot value recorded for one declaration (lines 227-232): the
`targets` array holds the original second argument of every declaration,
so a plain declaration contributes the (pull-mutated) object, while a
promise declaration contributes the promise object itself. -/
def snapValOf (heap : List Value) (d : DeclM) : SnapVal :=
  match d.kind with
  | .plain oid => .val (heap.getD oid .vUndef)
  | .promiseV oid => .promiseObj oid

/-- `(newTargetCache[name] ||= { hook, targets: [] }).targets.push(target)`. -/
def snapInsert (snap : Snapshot) (name hook : String) (sv : SnapVal) : Snapshot :=
  match snap with
  | [] => [(name, { hook := hook, targets := [sv] })]
  | (n, entry) :: rest =>
    if n = name then (n, { entry with targets := entry.targets ++ [sv] }) :: rest
    else (n, entry) :: snapInsert rest name hook sv

/-- The `newTargetCache` built from the declaration list after the try
block succeeds. -/
def buildSnapshot (heap : List Value) (decls : List DeclM) : Snapshot :=
  decls.foldl (fun snap d => snapInsert snap d.hook d.hook (snapValOf heap d)) []

/-- The rollback sweep `for (const revert of revertFns.reverse()) await
revert()`: invokes each revert in the given (already reversed) order; a
throwing revert aborts the loop and its error propagates. -/
def runRollback (beh : Nat → Option String) : List Nat → List Ev × Option String
  | [] => ([], none)
  | id :: rest =>
    match beh id with
    | none =>
      let r := runRollback beh rest
      (Ev.revertEv id :: r.1, r.2)
    | some e => ([Ev.revertEv id], some e)

/-- How the try block (lines 176-210) ends. -/
inductive BodyOut where
  | completed : BodyOut
  | noActionOut : BodyOut
  | bodyHang : BodyOut
  | bodyErr (e : String) : BodyOut
deriving DecidableEq, Repr

/-- The state at the start of the try block. -/
def initSt (heap : List Value) : St :=
  { trace := [], revertFns := [], updatedTargets := [],
    addedTargets := [], reused := [], heap := heap }

/-- The try block: run the declarations, await `deploying`, compute the
killable targets, report "no action" when nothing changed, else run the
kill loop.  `deploying` is only ever resolved by the cursor-advance block
of the last declaration, so a run with no declaration, or whose queue
stalled on a "Nothing changed" early return, waits forever. -/
def runBody (inp : Inp) : St × BodyOut :=
  match applyAll inp.dryRun inp.store inp.plugins (initSt inp.heap) inp.decls with
  | (st, .halted) => (st, .bodyHang)
  | (st, .failedOut e) => (st, .bodyErr e)
  | (st, .drained) =>
    if inp.decls.isEmpty then (st, .bodyHang)
    else
      match getKillableTargets inp.plugins st.reused inp.store with
      | .error e => (st, .bodyErr e)
      | .ok killedTargets =>
        if killedTargets.length + st.updatedTargets.length + st.addedTargets.length = 0 then
          ({ st with trace := st.trace ++ [Ev.noActionInfo] }, .noActionOut)
        else
          match killPhase inp.dryRun st killedTargets with
          | (st2, some e) => (st2, .bodyErr e)
          | (st2, none) => (st2, .completed)

/-- Source `deploy` (lines 27-249): the git precondition, the lock
precondition and lock creation, the try block, the catch handler with its
rollback sweep, the finally that deletes the lock, and the snapshot
persisted (or rendered to the debug file on a dry run) after the try
block completes. -/
def deploy (inp : Inp) : RunResult :=
  if !inp.dryRun && !inp.gitClean then
    { trace := [], outcome := .errOut "Cannot deploy with unstaged changes",
      lockHeld := inp.lockExists }
  else if !inp.dryRun && inp.lockExists then
    { trace := [], outcome := .errOut "A deployment is already in progress",
      lockHeld := inp.lockExists }
  else
    let r := runBody inp
    let st := r.1
    match r.2 with
    | .bodyHang =>
      { trace := [Ev.lockCreate] ++ st.trace, outcome := .hang, lockHeld := true }
    | .bodyErr e =>
      if inp.dryRun then
        { trace := [Ev.lockCreate] ++ st.trace ++ [Ev.errLog e, Ev.lockDelete],
          outcome := .errOut e, lockHeld := false }
      else
        let rb := runRollback inp.revertBeh st.revertFns.reverse
        { trace := [Ev.lockCreate] ++ st.trace ++ [Ev.errLog e] ++ rb.1 ++ [Ev.lockDelete],
          outcome := .errOut (rb.2.getD e), lockHeld := false }
    | .noActionOut =>
      { trace := [Ev.lockCreate] ++ st.trace ++ [Ev.lockDelete],
        outcome := .success, lockHeld := false }
    | .completed =>
      let snap := buildSnapshot st.heap inp.decls
      if inp.dryRun then
        { trace := [Ev.lockCreate] ++ st.trace ++ [Ev.lockDelete, Ev.debugWrite snap],
          outcome := .success, lockHeld := false }
      else
        { trace := [Ev.lockCreate] ++ st.trace ++ [Ev.lockDelete, Ev.storeWrite snap],
          outcome := .success, lockHeld := false }

/-- Spawn, update and kill capability invocations of a trace. -/
def isActionEv : Ev → Bool
  | .spawnEv _ _ _ => true
  | .updateEv _ _ _ _ => true
  | .killEv _ _ _ => true
  | _ => false

/-- The spawn/update/kill invocations of a trace, in order. -/
def actionEvents (tr : List Ev) : List Ev := tr.filter isActionEv

/-- The revert-function id a successful action event returned, if any. -/
def pushedRevertSel : Ev → Option Nat
  | .spawnEv _ _ (.ok (some r)) => some r
  | .updateEv _ _ _ (.ok (some r)) => some r
  | .killEv _ _ (.ok (some r)) => some r
  | _ => none

/-- The revert-function ids returned by successful actions, in push
order. -/
def pushedReverts (tr : List Ev) : List Nat :=
  tr.filterMap pushedRevertSel

/-- The revert id of a revert-invocation event. -/
def revertEvSel : Ev → Option Nat
  | .revertEv id => some id
  | _ => none

/-- The revert functions invoked by a trace, in invocation order. -/
def revertEvs (tr : List Ev) : List Nat :=
  tr.filterMap revertEvSel

/-- The snapshot of a real-store write event. -/
def storeWriteSel : Ev → Option Snapshot
  | .storeWrite s => some s
  | _ => none

/-- The snapshots written to the real Target Store by a trace. -/
def storeWrites (tr : List Ev) : List Snapshot :=
  tr.filterMap storeWriteSel

/-! ## The declaration queue under concurrency

`context.addTarget` (lines 160-174) and the cursor-advance block of
`addTarget` (lines 147-157) implement an ordered dispatch queue: a
declaration is dispatched immediately when its index equals `targetIndex`,
and otherwise waits in `targets` until the cursor reaches it.  The
small-step system below captures the scheduler nondeterminism: the script
may declare a next target at any time, any declared target's promise may
resolve at any time, and the dispatched head target runs its actions only
once its own promise has resolved. -/

/-- What the body of `addTarget` does for a declaration once dispatched
and resolved: reach the cursor-advance block (lines 147-157), or return
early — the "Nothing changed" return at line 122 or the catch return at
line 144 — leaving `targetIndex` unchanged, so no later declaration is
ever dispatched. -/
inductive BodyRes where
  | advance : BodyRes
  | earlyReturn : BodyRes
deriving DecidableEq, Repr

/-- A configuration of the declaration queue: `declared` is
`targets.length`, `cursor` is `targetIndex`, `resolved` the set of
declaration indices whose target promise has resolved, `trace` the order
in which per-target action bodies ran, `halted` whether an early return
killed the dispatch chain. -/
structure QConf where
  declared : Nat
  cursor : Nat
  resolved : List Nat
  trace : List Nat
  halted : Bool
deriving DecidableEq, Repr

/-- The initial queue configuration. -/
def QInit : QConf :=
  { declared := 0, cursor := 0, resolved := [], trace := [], halted := false }

/-- One scheduler step of the queue, for a fixed body behavior: the
script declares the next target; some declared target's promise resolves;
or the dispatched head declaration (its index equals the cursor and its
promise is resolved) runs its body, advancing the cursor unless the body
returned early. -/
inductive QStep (body : Nat → BodyRes) : QConf → QConf → Prop where
  | declare (c : QConf) :
      QStep body c { c with declared := c.declared + 1 }
  | resolve (c : QConf) (j : Nat) (hj : j < c.declared) :
      QStep body c { c with resolved := j :: c.resolved }
  | runAdvance (c : QConf) (hh : c.halted = false) (hc : c.cursor < c.declared)
      (hr : c.cursor ∈ c.resolved) (hb : body c.cursor = .advance) :
      QStep body c { c with trace := c.trace ++ [c.cursor], cursor := c.cursor + 1 }
  | runEarly (c : QConf) (hh : c.halted = false) (hc : c.cursor < c.declared)
      (hr : c.cursor ∈ c.resolved) (hb : body c.cursor = .earlyReturn) :
      QStep body c { c with trace := c.trace ++ [c.cursor], halted := true }

/-- Queue configurations reachable from the initial one. -/
def QReach (body : Nat → BodyRes) (c : QConf) : Prop :=
  Relation.ReflTransGen (QStep body) QInit c

/-- The per-key decision of the `diff` closure, with the unreachable
`Array.isArray` branch removed (arrays satisfy `isPlainObject`, so two
arrays take the first branch; see `diffList_arrayBranch_unreachable`):
two composites produce a nested ChangeSet entry (changed or not), other
unequal pairs a `true` entry, equal non-composite pairs no entry. -/
def diffEntry (oldV newV : Value) (k : String) : Option ChangeVal :=
  let oldValue := jsGet oldV k
  let value := jsGet newV k
  if isPlainObject oldValue && isPlainObject value then
    some (ChangeVal.nested (diffObjects oldValue value).1)
  else if oldValue ≠ value then
    some ChangeVal.leaf
  else none

/-! ## Lemmas about the diff engine -/

/-- The `Array.isArray` branch of the `diff` closure is unreachable: two
arrays already satisfy the `isPlainObject` test of the first branch. -/
theorem diffList_arrayBranch_unreachable (ov nv : Value)
    (h2 : (isArray ov && isArray nv) = true) :
    (isPlainObject ov && isPlainObject nv) = true := by
  simp only [Bool.and_eq_true] at h2 ⊢
  exact ⟨isPlainObject_of_isArray _ h2.1, isPlainObject_of_isArray _ h2.2⟩

/-- The cons step of `diffList`, with the unreachable array branch
eliminated. -/
theorem diffList_cons (oldV newV : Value) (k1 : String) (rest : List String)
    (acc : ChangeSet) (differs : Bool) :
    diffList oldV newV (k1 :: rest) acc differs =
      if (isPlainObject (jsGet oldV k1) && isPlainObject (jsGet newV k1)) = true then
        diffList oldV newV rest
          (acc ++ [(k1, ChangeVal.nested (diffObjects (jsGet oldV k1) (jsGet newV k1)).1)])
          (differs || (diffObjects (jsGet oldV k1) (jsGet newV k1)).2)
      else if jsGet oldV k1 ≠ jsGet newV k1 then
        diffList oldV newV rest (acc ++ [(k1, ChangeVal.leaf)]) true
      else
        diffList oldV newV rest acc differs := by
  conv_lhs => rw [diffList]
  split_ifs with h1 h2 h3 h4 h5 h6 h7
  case _ => rfl
  case _ => rfl
  all_goals first
    | rfl
    | (exact absurd (diffList_arrayBranch_unreachable _ _ (by assumption)) (by assumption))
    | (exact absurd (by assumption) (by assumption))

theorem diffList_mem (oldV newV : Value) (k : String) (cv : ChangeVal)
    (ks : List String) (acc : ChangeSet) (differs : Bool) :
    (k, cv) ∈ (diffList oldV newV ks acc differs).1 ↔
      (k, cv) ∈ acc ∨ (k ∈ ks ∧ diffEntry oldV newV k = some cv) := by
  induction ks generalizing acc differs with
  | nil => simp [diffList]
  | cons k1 rest ih =>
    rw [diffList_cons]
    by_cases h1 : (isPlainObject (jsGet oldV k1) && isPlainObject (jsGet newV k1)) = true
    · have hent : diffEntry oldV newV k1 =
          some (ChangeVal.nested (diffObjects (jsGet oldV k1) (jsGet newV k1)).1) := by
        simp [diffEntry, h1]
      rw [if_pos h1, ih]
      simp only [List.mem_append, List.mem_cons, List.not_mem_nil, or_false]
      constructor
      · rintro ((hacc | hone) | ⟨hkr, hde⟩)
        · exact Or.inl hacc
        · rw [Prod.mk.injEq] at hone
          obtain ⟨hk, hcv⟩ := hone
          subst hk
          exact Or.inr ⟨Or.inl rfl, by rw [hent, hcv]⟩
        · exact Or.inr ⟨Or.inr hkr, hde⟩
      · rintro (hacc | ⟨(hk | hkr), hde⟩)
        · exact Or.inl (Or.inl hacc)
        · subst hk
          rw [hent] at hde
          injection hde with hcv
          exact Or.inl (Or.inr (by rw [hcv]))
        · exact Or.inr ⟨hkr, hde⟩
    · rw [if_neg h1]
      by_cases h3 : jsGet oldV k1 ≠ jsGet newV k1
      · have hent : diffEntry oldV newV k1 = some ChangeVal.leaf := by
          simp only [diffEntry]
          rw [if_neg h1, if_pos h3]
        rw [if_pos h3, ih]
        simp only [List.mem_append, List.mem_cons, List.not_mem_nil, or_false]
        constructor
        · rintro ((hacc | hone) | ⟨hkr, hde⟩)
          · exact Or.inl hacc
          · rw [Prod.mk.injEq] at hone
            obtain ⟨hk, hcv⟩ := hone
            subst hk
            exact Or.inr ⟨Or.inl rfl, by rw [hent, hcv]⟩
          · exact Or.inr ⟨Or.inr hkr, hde⟩
        · rintro (hacc | ⟨(hk | hkr), hde⟩)
          · exact Or.inl (Or.inl hacc)
          · subst hk
            rw [hent] at hde
            injection hde with hcv
            exact Or.inl (Or.inr (by rw [hcv]))
          · exact Or.inr ⟨hkr, hde⟩
      · have hent : diffEntry oldV newV k1 = none := by
          simp only [diffEntry]
          rw [if_neg h1, if_neg h3]
        rw [if_neg h3, ih]
        simp only [List.mem_cons]
        constructor
        · rintro (hacc | ⟨hkr, hde⟩)
          · exact Or.inl hacc
          · exact Or.inr ⟨Or.inr hkr, hde⟩
        · rintro (hacc | ⟨(hk | hkr), hde⟩)
          · exact Or.inl hacc
          · subst hk
            rw [hent] at hde
            exact absurd hde (by simp)
          · exact Or.inr ⟨hkr, hde⟩

/-! ## The queue invariant -/

/-- C4: however declaration promises resolve — in any order, under any
interleaving of declarations, resolutions and dispatches — the per-target
action bodies run strictly in declaration order: every reachable queue
configuration has trace `0, 1, ..., cursor-1` in order (plus the final
stalled declaration when an early return halted the chain), so a later
declaration's actions never begin before every earlier one's completed. -/
theorem claim4_dispatch_in_declaration_order (body : Nat → BodyRes) (c : QConf)
    (h : QReach body c) :
    c.trace = List.range c.cursor ++ (if c.halted then [c.cursor] else []) := by
  induction h with
  | refl => simp [QInit]
  | tail hab hbc ih =>
    cases hbc with
    | declare => simpa using ih
    | resolve j hj => simpa using ih
    | runAdvance hh hc hr hb =>
      rw [hh] at ih
      simp only [if_neg Bool.false_ne_true] at ih
      simp [hh, ih, List.range_succ]
    | runEarly hh hc hr hb =>
      rw [hh] at ih
      simp only [if_neg Bool.false_ne_true] at ih
      simp [ih]

/-! ## Trace-shape lemmas for the engine -/

/-- Events the try block (apply and kill phases) can append. -/
def isBodyEv : Ev → Bool
  | .spawnEv _ _ _ => true
  | .updateEv _ _ _ _ => true
  | .killEv _ _ _ => true
  | .warnNoRevert _ _ => true
  | .noActionInfo => true
  | _ => false

/-- `st2` extends `st` by appending only try-block events, with the revert
stack extended by exactly the revert functions those events returned. -/
def EmitsOnly (st st2 : St) : Prop :=
  ∃ tl, st2.trace = st.trace ++ tl ∧ (∀ e ∈ tl, isBodyEv e = true) ∧
    st2.revertFns = st.revertFns ++ pushedReverts tl

theorem pushedReverts_append (a b : List Ev) :
    pushedReverts (a ++ b) = pushedReverts a ++ pushedReverts b :=
  List.filterMap_append _ _ _

theorem revertEvs_append (a b : List Ev) :
    revertEvs (a ++ b) = revertEvs a ++ revertEvs b :=
  List.filterMap_append _ _ _

theorem storeWrites_append (a b : List Ev) :
    storeWrites (a ++ b) = storeWrites a ++ storeWrites b :=
  List.filterMap_append _ _ _

theorem actionEvents_append (a b : List Ev) :
    actionEvents (a ++ b) = actionEvents a ++ actionEvents b :=
  List.filter_append _ _

theorem emitsOnly_refl (st : St) : EmitsOnly st st :=
  ⟨[], by simp, by simp, by simp [pushedReverts, pushedRevertSel]⟩

theorem emitsOnly_trans {st1 st2 st3 : St} (h1 : EmitsOnly st1 st2)
    (h2 : EmitsOnly st2 st3) : EmitsOnly st1 st3 := by
  obtain ⟨tl1, ht1, hb1, hr1⟩ := h1
  obtain ⟨tl2, ht2, hb2, hr2⟩ := h2
  refine ⟨tl1 ++ tl2, ?_, ?_, ?_⟩
  · rw [ht2, ht1, List.append_assoc]
  · intro e he
    rcases List.mem_append.mp he with h | h
    · exact hb1 e h
    · exact hb2 e h
  · rw [hr2, hr1, pushedReverts_append, List.append_assoc]

/-- Transport along states with the same trace and revert stack (record
updates of the other fields). -/
theorem emitsOnly_castR {st st2 st3 : St} (h : EmitsOnly st st2)
    (ht : st3.trace = st2.trace) (hr : st3.revertFns = st2.revertFns) :
    EmitsOnly st st3 := by
  obtain ⟨tl, h1, h2, h3⟩ := h
  exact ⟨tl, by rw [ht, h1], h2, by rw [hr, h3]⟩

/-- Appending one plain try-block event that pushes nothing. -/
theorem emitsOnly_emit (st : St) (ev : Ev) (hev : isBodyEv ev = true)
    (hpr : pushedReverts [ev] = []) :
    EmitsOnly st { st with trace := st.trace ++ [ev] } :=
  ⟨[ev], rfl, by simp [hev], by simp [hpr]⟩

/-- `addRevertFn` with a returned revert function. -/
theorem addRevertFn_some (dr : Bool) (st : St) (id : Nat) (p : PluginM) (a : String) :
    addRevertFn dr st (some id) p a = { st with revertFns := st.revertFns ++ [id] } := rfl

theorem addRevertFn_none_wet (st : St) (p : PluginM) (a : String) :
    addRevertFn false st none p a =
      { st with trace := st.trace ++ [Ev.warnNoRevert p.name a] } := rfl

theorem addRevertFn_none_dry (st : St) (p : PluginM) (a : String) :
    addRevertFn true st none p a = st := rfl

/-- An action invocation followed by `addRevertFn` appends try-block
events and pushes exactly the revert function the action returned. -/
theorem emitAction_emits (dryRun : Bool) (st : St) (ev : Ev) (r : Option Nat)
    (p : PluginM) (a : String) (hev : isBodyEv ev = true)
    (hpr : pushedReverts [ev] = r.toList) :
    EmitsOnly st (emitAction dryRun st ev r p a) := by
  cases r with
  | some id =>
    rw [emitAction, addRevertFn_some]
    refine ⟨[ev], rfl, ?_, ?_⟩
    · intro e he
      rw [List.mem_singleton.mp he]
      exact hev
    · simp [hpr]
  | none =>
    cases dryRun with
    | true =>
      rw [emitAction, addRevertFn_none_dry]
      refine ⟨[ev], rfl, ?_, ?_⟩
      · intro e he
        rw [List.mem_singleton.mp he]
        exact hev
      · simp at hpr
        simp [pushedReverts, pushedRevertSel] at hpr ⊢
        exact hpr
    | false =>
      rw [emitAction, addRevertFn_none_wet]
      refine ⟨[ev, Ev.warnNoRevert p.name a], by simp, ?_, ?_⟩
      · intro e he
        rcases List.mem_cons.mp he with h | h
        · rw [h]; exact hev
        · rw [List.mem_singleton.mp h]; exact rfl
      · have hw : pushedReverts [Ev.warnNoRevert p.name a] = [] := by
          simp [pushedReverts, pushedRevertSel]
        have hsplit := pushedReverts_append [ev] [Ev.warnNoRevert p.name a]
        simp only [List.singleton_append] at hsplit
        rw [hsplit, hpr, hw]
        simp

theorem pushedReverts_spawnOk (n : String) (t : Value) (r : Option Nat) :
    pushedReverts [Ev.spawnEv n t (.ok r)] = r.toList := by
  cases r <;> simp [pushedReverts, pushedRevertSel]

theorem pushedReverts_updateOk (n : String) (t : Value) (c : ChangeSet) (r : Option Nat) :
    pushedReverts [Ev.updateEv n t c (.ok r)] = r.toList := by
  cases r <;> simp [pushedReverts, pushedRevertSel]

theorem pushedReverts_killOk (n : String) (t : Value) (r : Option Nat) :
    pushedReverts [Ev.killEv n t (.ok r)] = r.toList := by
  cases r <;> simp [pushedReverts, pushedRevertSel]

/-- Entry into a state with the same trace and revert stack. -/
theorem emitsOnly_toBase (st base : St) (ht : base.trace = st.trace)
    (hr : base.revertFns = st.revertFns) : EmitsOnly st base :=
  emitsOnly_castR (emitsOnly_refl st) ht hr

/-- Chain an action invocation onto an established emission. -/
theorem emitAction_emits_from {st base : St} (h : EmitsOnly st base)
    (dryRun : Bool) (ev : Ev) (r : Option Nat) (p : PluginM) (a : String)
    (hev : isBodyEv ev = true) (hpr : pushedReverts [ev] = r.toList) :
    EmitsOnly st (emitAction dryRun base ev r p a) :=
  emitsOnly_trans h (emitAction_emits dryRun base ev r p a hev hpr)

/-- Chain a plain event emission onto an established emission. -/
theorem emitsOnly_emit_from {st base : St} (h : EmitsOnly st base) (ev : Ev)
    (hev : isBodyEv ev = true) (hpr : pushedReverts [ev] = []) :
    EmitsOnly st { base with trace := base.trace ++ [ev] } :=
  emitsOnly_trans h (emitsOnly_emit base ev hev hpr)

/-- `addTarget` appends only try-block events. -/
theorem applyOne_emits (dryRun : Bool) (store : Store) (ps : List PluginM)
    (st : St) (d : DeclM) :
    EmitsOnly st (applyOne dryRun store ps st d).1 := by
  cases hfind : ps.find? (fun p => p.name == d.hook) with
  | none =>
    simp only [applyOne, hfind]
    exact emitsOnly_refl st
  | some plugin =>
    cases hsaved : findSavedTarget store plugin
        (toObjectHash (plugin.identify (applyPullTo plugin (st.heap.getD d.kind.oid .vUndef)))) with
    | error e =>
      simp only [applyOne, hfind, hsaved]
      exact emitsOnly_castR (emitsOnly_refl st) rfl rfl
    | ok osaved =>
      cases osaved with
      | none =>
        cases hspawn : plugin.spawn (applyPullTo plugin (st.heap.getD d.kind.oid .vUndef)) with
        | ok r =>
          simp only [applyOne, hfind, hsaved, hspawn]
          exact emitsOnly_castR
            (emitAction_emits_from (emitsOnly_toBase st { st with heap := st.heap.set d.kind.oid (applyPullTo plugin (st.heap.getD d.kind.oid .vUndef)) } rfl rfl)
              dryRun (Ev.spawnEv plugin.name (applyPullTo plugin (st.heap.getD d.kind.oid .vUndef)) (.ok r)) r plugin "spawn"
              rfl (pushedReverts_spawnOk _ _ _))
            rfl rfl
        | err e =>
          simp only [applyOne, hfind, hsaved, hspawn]
          exact emitsOnly_emit_from (emitsOnly_toBase st { st with heap := st.heap.set d.kind.oid (applyPullTo plugin (st.heap.getD d.kind.oid .vUndef)) } rfl rfl)
            (Ev.spawnEv plugin.name (applyPullTo plugin (st.heap.getD d.kind.oid .vUndef)) (.err e)) rfl (by simp [pushedReverts, pushedRevertSel])
      | some isaved =>
        obtain ⟨i, savedTarget⟩ := isaved
        by_cases hch : (diffObjects savedTarget (applyPullTo plugin (st.heap.getD d.kind.oid .vUndef))).2 = true
        · by_cases hup : plugin.hasUpdate = true
          · cases hupd : plugin.update (applyPullTo plugin (st.heap.getD d.kind.oid .vUndef)) (diffObjects savedTarget (applyPullTo plugin (st.heap.getD d.kind.oid .vUndef))).1 with
            | ok r =>
              simp only [applyOne, hfind, hsaved, hch, hup, Bool.not_true, Bool.false_eq_true,
                if_false, if_true, hupd]
              exact emitsOnly_castR
                (emitAction_emits_from (emitsOnly_toBase st { st with reused := st.reused ++ [(plugin.name, i)], heap := st.heap.set d.kind.oid (applyPullTo plugin (st.heap.getD d.kind.oid .vUndef)) } rfl rfl)
                  dryRun (Ev.updateEv plugin.name (applyPullTo plugin (st.heap.getD d.kind.oid .vUndef)) (diffObjects savedTarget (applyPullTo plugin (st.heap.getD d.kind.oid .vUndef))).1 (.ok r))
                  r plugin "update" rfl (pushedReverts_updateOk _ _ _ _))
                rfl rfl
            | err e =>
              simp only [applyOne, hfind, hsaved, hch, hup, Bool.not_true, Bool.false_eq_true,
                if_false, if_true, hupd]
              exact emitsOnly_emit_from (emitsOnly_toBase st { st with reused := st.reused ++ [(plugin.name, i)], heap := st.heap.set d.kind.oid (applyPullTo plugin (st.heap.getD d.kind.oid .vUndef)) } rfl rfl)
                (Ev.updateEv plugin.name (applyPullTo plugin (st.heap.getD d.kind.oid .vUndef)) (diffObjects savedTarget (applyPullTo plugin (st.heap.getD d.kind.oid .vUndef))).1 (.err e))
                rfl (by simp [pushedReverts, pushedRevertSel])
          · rw [Bool.not_eq_true] at hup
            cases hkill : plugin.kill savedTarget with
            | ok r =>
              cases hspawn : plugin.spawn (applyPullTo plugin (st.heap.getD d.kind.oid .vUndef)) with
              | ok r2 =>
                simp only [applyOne, hfind, hsaved, hch, hup, Bool.not_true, Bool.false_eq_true,
                  if_false, if_true, hkill, hspawn]
                exact emitsOnly_castR
                  (emitAction_emits_from
                    (emitAction_emits_from (emitsOnly_toBase st { st with reused := st.reused ++ [(plugin.name, i)], heap := st.heap.set d.kind.oid (applyPullTo plugin (st.heap.getD d.kind.oid .vUndef)) } rfl rfl)
                      dryRun (Ev.killEv plugin.name savedTarget (.ok r)) r plugin "kill"
                      rfl (pushedReverts_killOk _ _ _))
                    dryRun (Ev.spawnEv plugin.name (applyPullTo plugin (st.heap.getD d.kind.oid .vUndef)) (.ok r2)) r2 plugin "spawn"
                    rfl (pushedReverts_spawnOk _ _ _))
                  rfl rfl
              | err e =>
                simp only [applyOne, hfind, hsaved, hch, hup, Bool.not_true, Bool.false_eq_true,
                  if_false, if_true, hkill, hspawn]
                exact emitsOnly_emit_from
                  (emitAction_emits_from (emitsOnly_toBase st { st with reused := st.reused ++ [(plugin.name, i)], heap := st.heap.set d.kind.oid (applyPullTo plugin (st.heap.getD d.kind.oid .vUndef)) } rfl rfl)
                    dryRun (Ev.killEv plugin.name savedTarget (.ok r)) r plugin "kill"
                    rfl (pushedReverts_killOk _ _ _))
                  (Ev.spawnEv plugin.name (applyPullTo plugin (st.heap.getD d.kind.oid .vUndef)) (.err e)) rfl (by simp [pushedReverts, pushedRevertSel])
            | err e =>
              simp only [applyOne, hfind, hsaved, hch, hup, Bool.not_true, Bool.false_eq_true,
                if_false, if_true, hkill]
              exact emitsOnly_emit_from (emitsOnly_toBase st { st with reused := st.reused ++ [(plugin.name, i)], heap := st.heap.set d.kind.oid (applyPullTo plugin (st.heap.getD d.kind.oid .vUndef)) } rfl rfl)
                (Ev.killEv plugin.name savedTarget (.err e)) rfl (by simp [pushedReverts, pushedRevertSel])
        · rw [Bool.not_eq_true] at hch
          simp only [applyOne, hfind, hsaved, hch, Bool.not_false, if_true]
          exact emitsOnly_castR (emitsOnly_refl st) rfl rfl

/-- The whole apply phase appends only try-block events. -/
theorem applyAll_emits (dryRun : Bool) (store : Store) (ps : List PluginM) :
    ∀ (ds : List DeclM) (st : St), EmitsOnly st (applyAll dryRun store ps st ds).1
  | [], st => emitsOnly_refl st
  | d :: rest, st => by
    rw [applyAll]
    cases h1 : applyOne dryRun store ps st d with
    | mk st2 out =>
      have hemit : EmitsOnly st st2 := by
        have := applyOne_emits dryRun store ps st d
        rw [h1] at this
        exact this
      cases out with
      | advanced => exact emitsOnly_trans hemit (applyAll_emits dryRun store ps rest st2)
      | unchangedHalt => exact hemit
      | failed e => exact hemit

/-- The kill phase appends only try-block events. -/
theorem killPhase_emits (dryRun : Bool) :
    ∀ (ks : List (PluginM × Value)) (st : St), EmitsOnly st (killPhase dryRun st ks).1
  | [], st => emitsOnly_refl st
  | (plugin, target) :: rest, st => by
    rw [killPhase]
    cases hkill : plugin.kill target with
    | ok r =>
      exact emitsOnly_trans
        (emitAction_emits dryRun st (Ev.killEv plugin.name target (.ok r)) r plugin "kill"
          rfl (pushedReverts_killOk _ _ _))
        (killPhase_emits dryRun rest _)
    | err e =>
      exact emitsOnly_emit st (Ev.killEv plugin.name target (.err e)) rfl
        (by simp [pushedReverts, pushedRevertSel])

/-- The try block emits only try-block events, and its revert stack is
exactly the revert functions its successful actions returned, in push
order. -/
theorem runBody_emits (inp : Inp) :
    (∀ e ∈ (runBody inp).1.trace, isBodyEv e = true) ∧
      (runBody inp).1.revertFns = pushedReverts (runBody inp).1.trace := by
  have hbase : EmitsOnly (initSt inp.heap) (runBody inp).1 := by
    unfold runBody
    cases happly : applyAll inp.dryRun inp.store inp.plugins (initSt inp.heap) inp.decls with
    | mk st out =>
      have hemit : EmitsOnly (initSt inp.heap) st := by
        have := applyAll_emits inp.dryRun inp.store inp.plugins inp.decls (initSt inp.heap)
        rw [happly] at this
        exact this
      cases out with
      | halted => exact hemit
      | failedOut e => exact hemit
      | drained =>
        by_cases hempty : inp.decls.isEmpty = true
        · simp only [hempty, if_true]
          exact hemit
        · simp only [hempty, Bool.false_eq_true, if_false]
          cases hkt : getKillableTargets inp.plugins st.reused inp.store with
          | error e => exact hemit
          | ok killedTargets =>
            by_cases hnum : killedTargets.length + st.updatedTargets.length +
                st.addedTargets.length = 0
            · simp only [hnum, if_pos]
              exact emitsOnly_emit_from hemit Ev.noActionInfo rfl (by simp [pushedReverts, pushedRevertSel])
            · simp only [if_neg hnum]
              cases hkp : killPhase inp.dryRun st killedTargets with
              | mk st2 oerr =>
                have hk : EmitsOnly st st2 := by
                  have := killPhase_emits inp.dryRun killedTargets st
                  rw [hkp] at this
                  exact this
                cases oerr with
                | some e => exact emitsOnly_trans hemit hk
                | none => exact emitsOnly_trans hemit hk
  obtain ⟨tl, h1, h2, h3⟩ := hbase
  simp only [initSt, List.nil_append] at h1 h3
  rw [h1, h3]
  exact ⟨h2, rfl⟩

theorem storeWriteSel_of_bodyEv {e : Ev} (h : isBodyEv e = true) :
    storeWriteSel e = none := by
  cases e <;> first | rfl | simp_all [isBodyEv]

theorem revertEvSel_of_bodyEv {e : Ev} (h : isBodyEv e = true) :
    revertEvSel e = none := by
  cases e <;> first | rfl | simp_all [isBodyEv]

/-- Try-block events are never store writes. -/
theorem storeWrites_of_bodyEv {tr : List Ev} (h : ∀ e ∈ tr, isBodyEv e = true) :
    storeWrites tr = [] := by
  rw [storeWrites, List.filterMap_eq_nil_iff]
  exact fun e he => storeWriteSel_of_bodyEv (h e he)

/-- Try-block events are never revert invocations. -/
theorem revertEvs_of_bodyEv {tr : List Ev} (h : ∀ e ∈ tr, isBodyEv e = true) :
    revertEvs tr = [] := by
  rw [revertEvs, List.filterMap_eq_nil_iff]
  exact fun e he => revertEvSel_of_bodyEv (h e he)

/-! ## Rollback lemmas -/

/-- A sweep whose revert functions all succeed invokes every one, in the
given order. -/
theorem runRollback_allOk (beh : Nat → Option String) (l : List Nat)
    (h : ∀ id ∈ l, beh id = none) :
    runRollback beh l = (l.map Ev.revertEv, none) := by
  induction l with
  | nil => rfl
  | cons id rest ih =>
    rw [runRollback]
    rw [h id (List.mem_cons_self id rest)]
    rw [ih (fun j hj => h j (List.mem_cons_of_mem id hj))]
    simp

/-- A sweep stops at the first throwing revert function: it invokes the
successful prefix and the throwing one, skips the rest, and its error
replaces the outcome. -/
theorem runRollback_split (beh : Nat → Option String) (good rest : List Nat)
    (bad : Nat) (e : String) (hgood : ∀ id ∈ good, beh id = none)
    (hbad : beh bad = some e) :
    runRollback beh (good ++ bad :: rest) =
      (good.map Ev.revertEv ++ [Ev.revertEv bad], some e) := by
  induction good with
  | nil =>
    simp only [List.nil_append, List.map_nil]
    rw [runRollback, hbad]
  | cons id gr ih =>
    rw [List.cons_append, runRollback, hgood id (List.mem_cons_self id gr),
      ih (fun j hj => hgood j (List.mem_cons_of_mem id hj))]
    simp

theorem revertEvs_map (l : List Nat) : revertEvs (l.map Ev.revertEv) = l := by
  induction l with
  | nil => rfl
  | cons id rest ih => simp [revertEvs, revertEvSel] at ih ⊢; try exact ih

theorem pushedReverts_map_revertEv (l : List Nat) :
    pushedReverts (l.map Ev.revertEv) = [] := by
  induction l with
  | nil => rfl
  | cons id rest ih => simp [pushedReverts, pushedRevertSel] at ih ⊢; try exact ih

/-- The shape of a failed non-dry run: error logged, rollback sweep,
lock deleted, the sweep error (if any) replacing the original one. -/
theorem deploy_wet_err (inp : Inp) (e : String)
    (hdry : inp.dryRun = false) (hg : inp.gitClean = true)
    (hl : inp.lockExists = false) (hfail : (runBody inp).2 = .bodyErr e) :
    deploy inp =
      { trace := [Ev.lockCreate] ++ (runBody inp).1.trace ++ [Ev.errLog e] ++
          (runRollback inp.revertBeh (runBody inp).1.revertFns.reverse).1 ++ [Ev.lockDelete],
        outcome := .errOut
          (((runRollback inp.revertBeh (runBody inp).1.revertFns.reverse).2).getD e),
        lockHeld := false } := by
  unfold deploy
  rw [hdry, hg, hl]
  simp only [Bool.not_false, Bool.not_true, Bool.and_false, Bool.false_eq_true, if_false,
    Bool.and_true, hfail]

theorem revertEvs_lockCreate : revertEvs [Ev.lockCreate] = [] := rfl

theorem revertEvs_lockDelete : revertEvs [Ev.lockDelete] = [] := rfl

theorem revertEvs_errLog (e : String) : revertEvs [Ev.errLog e] = [] := rfl

theorem pushedReverts_lockCreate : pushedReverts [Ev.lockCreate] = [] := rfl

theorem pushedReverts_lockDelete : pushedReverts [Ev.lockDelete] = [] := rfl

theorem pushedReverts_errLog (e : String) : pushedReverts [Ev.errLog e] = [] := rfl

theorem storeWrites_lockCreate : storeWrites [Ev.lockCreate] = [] := rfl

theorem storeWrites_lockDelete : storeWrites [Ev.lockDelete] = [] := rfl

theorem storeWrites_errLog (e : String) : storeWrites [Ev.errLog e] = [] := rfl

theorem storeWrites_debugWrite (s : Snapshot) : storeWrites [Ev.debugWrite s] = [] := rfl

theorem storeWrites_map_revertEv (l : List Nat) :
    storeWrites (l.map Ev.revertEv) = [] := by
  induction l with
  | nil => rfl
  | cons id rest ih => simp [storeWrites, storeWriteSel] at ih ⊢; try exact ih

/-! ## Claim theorems for dry-run behavior and rollback -/

/-- C1 (amended): with dry-run active the real Target Store is never
rewritten and the rollback sweep never runs — but (see the
counterexample) plugin spawn/update/kill capabilities are still invoked;
only the store write and the revert invocations are suppressed. -/
theorem claim1_dry_run_never_writes_store (inp : Inp) (hdry : inp.dryRun = true) :
    storeWrites (deploy inp).trace = [] ∧ revertEvs (deploy inp).trace = [] := by
  have hbody := runBody_emits inp
  unfold deploy
  rw [hdry]
  simp only [Bool.not_true, Bool.false_and, Bool.false_eq_true, if_false]
  cases hout : (runBody inp).2 with
  | bodyHang =>
    simp only [hout]
    refine ⟨?_, ?_⟩ <;>
      [rw [storeWrites, List.filterMap_eq_nil_iff];
       rw [revertEvs, List.filterMap_eq_nil_iff]] <;>
      · intro a ha
        have hOK := hbody.1 a
        cases a <;> simp_all [storeWriteSel, revertEvSel, isBodyEv]
  | bodyErr e =>
    simp only [hout, hdry, if_true]
    refine ⟨?_, ?_⟩ <;>
      [rw [storeWrites, List.filterMap_eq_nil_iff];
       rw [revertEvs, List.filterMap_eq_nil_iff]] <;>
      · intro a ha
        have hOK := hbody.1 a
        cases a <;> simp_all [storeWriteSel, revertEvSel, isBodyEv]
  | noActionOut =>
    simp only [hout]
    refine ⟨?_, ?_⟩ <;>
      [rw [storeWrites, List.filterMap_eq_nil_iff];
       rw [revertEvs, List.filterMap_eq_nil_iff]] <;>
      · intro a ha
        have hOK := hbody.1 a
        cases a <;> simp_all [storeWriteSel, revertEvSel, isBodyEv]
  | completed =>
    simp only [hout, hdry, if_true]
    refine ⟨?_, ?_⟩ <;>
      [rw [storeWrites, List.filterMap_eq_nil_iff];
       rw [revertEvs, List.filterMap_eq_nil_iff]] <;>
      · intro a ha
        have hOK := hbody.1 a
        cases a <;> simp_all [storeWriteSel, revertEvSel, isBodyEv]

/-- C2: when an action of a failed non-dry run throws, the rollback sweep
invokes exactly the revert functions pushed by the previously successful
actions, in strict reverse push order (the failing action pushed none),
and the run reports the original error (all pushed reverts succeeding). -/
theorem claim2_rollback_reverse_order (inp : Inp) (e : String)
    (hdry : inp.dryRun = false) (hg : inp.gitClean = true)
    (hl : inp.lockExists = false) (hfail : (runBody inp).2 = .bodyErr e)
    (hok : ∀ id ∈ (runBody inp).1.revertFns, inp.revertBeh id = none) :
    revertEvs (deploy inp).trace = (pushedReverts (deploy inp).trace).reverse ∧
      (deploy inp).outcome = .errOut e := by
  have hbody := runBody_emits inp
  have hrb := runRollback_allOk inp.revertBeh ((runBody inp).1.revertFns.reverse)
    (fun id hid => hok id (List.mem_reverse.mp hid))
  rw [deploy_wet_err inp e hdry hg hl hfail]
  rw [hrb]
  constructor
  · simp only [revertEvs_append, pushedReverts_append, revertEvs_map,
      pushedReverts_map_revertEv, revertEvs_of_bodyEv hbody.1,
      revertEvs_lockCreate, revertEvs_lockDelete, revertEvs_errLog,
      pushedReverts_lockCreate, pushedReverts_lockDelete, pushedReverts_errLog,
      List.append_nil, List.nil_append]
    rw [← hbody.2]
  · simp

/-- C3 (amended): if a revert function thrown during the rollback sweep
raises an error, the sweep stops there: the successful prefix and the
throwing revert are the only ones invoked, the remaining revert functions
are never attempted, and the run reports the rollback error instead of
the original action error. -/
theorem claim3_revert_error_aborts_sweep (inp : Inp) (e e2 : String)
    (good rest : List Nat) (bad : Nat)
    (hdry : inp.dryRun = false) (hg : inp.gitClean = true)
    (hl : inp.lockExists = false) (hfail : (runBody inp).2 = .bodyErr e)
    (hsplit : (runBody inp).1.revertFns.reverse = good ++ bad :: rest)
    (hgood : ∀ id ∈ good, inp.revertBeh id = none)
    (hbad : inp.revertBeh bad = some e2) :
    revertEvs (deploy inp).trace = good ++ [bad] ∧
      (deploy inp).outcome = .errOut e2 := by
  have hbody := runBody_emits inp
  rw [deploy_wet_err inp e hdry hg hl hfail]
  rw [hsplit, runRollback_split inp.revertBeh good rest bad e2 hgood hbad]
  constructor
  · simp only [revertEvs_append, revertEvs_map,
      revertEvs_of_bodyEv hbody.1, revertEvs_lockCreate, revertEvs_lockDelete,
      revertEvs_errLog, List.append_nil, List.nil_append]
    simp [revertEvs, revertEvSel]
  · simp

/-! ## Concrete run inputs -/

/-- The spec's no-op example target: `{name:"x", size:1}`. -/
def tgtX : Value := Value.vObj [("name", Value.vStr "x"), ("size", Value.vNum 1)]

/-- A provider whose capabilities all succeed, returning distinct revert
functions; it identifies a target by its whole value. -/
def okPlugin : PluginM :=
  { name := "web"
    pull := none
    identify := fun t => t
    hasUpdate := false
    spawn := fun _ => .ok (some 0)
    update := fun _ _ => .ok (some 1)
    kill := fun _ => .ok (some 2) }

/-- A dry run declaring one fresh target over a store with no prior `web`
targets. -/
def inpC1 : Inp :=
  { dryRun := true, gitClean := true, lockExists := false
    store := [("web", { hook := "web", targets := [] })]
    plugins := [okPlugin]
    heap := [tgtX]
    decls := [{ hook := "web", kind := .plain 0 }]
    revertBeh := fun _ => none }

/-- A run whose only declared target is identical to the single saved
target: the no-op / idempotent second-run situation of the spec. -/
def inpC7 : Inp :=
  { dryRun := false, gitClean := true, lockExists := false
    store := [("web", { hook := "web", targets := [tgtX] })]
    plugins := [okPlugin]
    heap := [tgtX]
    decls := [{ hook := "web", kind := .plain 0 }]
    revertBeh := fun _ => none }

/-- The first idempotence run: same declaration, but no prior `web`
targets, so the target is spawned and the store written. -/
def inp8a : Inp :=
  { dryRun := false, gitClean := true, lockExists := false
    store := [("web", { hook := "web", targets := [] })]
    plugins := [okPlugin]
    heap := [tgtX]
    decls := [{ hook := "web", kind := .plain 0 }]
    revertBeh := fun _ => none }

/-- Targets for the rollback runs. -/
def tgtA : Value := Value.vObj [("name", Value.vStr "a")]

def tgtB : Value := Value.vObj [("name", Value.vStr "b")]

def tgtC : Value := Value.vObj [("name", Value.vStr "c")]

/-- A provider whose first two spawns succeed with distinct revert
functions and whose third spawn throws. -/
def failPlugin : PluginM :=
  { name := "web"
    pull := none
    identify := fun t => t
    hasUpdate := false
    spawn := fun t =>
      if t = tgtA then .ok (some 1) else if t = tgtB then .ok (some 2) else .err "boom"
    update := fun _ _ => .ok none
    kill := fun _ => .ok none }

/-- Three fresh declarations whose third action fails; every revert
function succeeds. -/
def inpC2 : Inp :=
  { dryRun := false, gitClean := true, lockExists := false
    store := [("web", { hook := "web", targets := [] })]
    plugins := [failPlugin]
    heap := [tgtA, tgtB, tgtC]
    decls := [{ hook := "web", kind := .plain 0 }, { hook := "web", kind := .plain 1 },
              { hook := "web", kind := .plain 2 }]
    revertBeh := fun _ => none }

/-- The same failing run, but the revert function popped first (id 2)
throws. -/
def inpC3 : Inp :=
  { inpC2 with revertBeh := fun id => if id = 2 then some "rollback boom" else none }

/-- A non-dry run attempted while the lock artifact already exists. -/
def inpC9 : Inp :=
  { dryRun := false, gitClean := true, lockExists := true
    store := [], plugins := [], heap := [], decls := []
    revertBeh := fun _ => none }

/-! ## Remaining claim theorems -/

/-- C1 (counterexample): a dry run still invokes the plugin spawn
capability — refuting that no spawn/update/kill is ever invoked when
dry-run is active. -/
theorem claim1_counterexample :
    inpC1.dryRun = true ∧ Ev.spawnEv "web" tgtX (.ok (some 0)) ∈ (deploy inpC1).trace :=
  ⟨rfl, by decide⟩

/-- C5 (code bug): `diff` reports `changed=false` for an empty array
against an empty plain object nested under the same key — values that are
not structurally equal (the spec-side `specDeepEq` distinguishes them).
The cause: `isPlainObject` admits arrays (`typeof [] == 'object'`), so
the dedicated `Array.isArray` branch of the diff closure is dead code and
arrays are diffed as plain objects. -/
theorem claim5_array_object_conflation :
    (diffObjects (Value.vObj [("a", Value.vArr [])])
      (Value.vObj [("a", Value.vObj [])])).2 = false ∧
    specDeepEq (Value.vObj [("a", Value.vArr [])])
      (Value.vObj [("a", Value.vObj [])]) = false := by
  constructor
  · simp [diffObjects, diffList, diffKeys, jsKeys, jsGet, jsHas, canonIdx,
      isPlainObject, isArray, List.lookup]
  · simp [specDeepEq, specArrEq, jsGet, List.lookup]

/-- C6 (counterexample): diffing two records that differ only in the leaf
`a.x` still produces a ChangeSet entry for the unchanged composite field
`b` (an empty nested ChangeSet) — refuting that unchanged fields get no
entry and that the ChangeSet holds exactly the changed path. -/
theorem claim6_counterexample :
    ("b", ChangeVal.nested []) ∈
      (diffObjects
        (Value.vObj [("a", Value.vObj [("x", Value.vNum 1)]), ("b", Value.vObj [("y", Value.vNum 2)])])
        (Value.vObj [("a", Value.vObj [("x", Value.vNum 2)]), ("b", Value.vObj [("y", Value.vNum 2)])])).1 ∧
    jsGet (Value.vObj [("a", Value.vObj [("x", Value.vNum 1)]), ("b", Value.vObj [("y", Value.vNum 2)])]) "b" =
      jsGet (Value.vObj [("a", Value.vObj [("x", Value.vNum 2)]), ("b", Value.vObj [("y", Value.vNum 2)])]) "b" := by
  constructor
  · have h : (diffObjects
        (Value.vObj [("a", Value.vObj [("x", Value.vNum 1)]), ("b", Value.vObj [("y", Value.vNum 2)])])
        (Value.vObj [("a", Value.vObj [("x", Value.vNum 2)]), ("b", Value.vObj [("y", Value.vNum 2)])])).1 =
        [("a", ChangeVal.nested [("x", ChangeVal.leaf)]), ("b", ChangeVal.nested [])] := by
      simp [diffObjects, diffList, diffKeys, jsKeys, jsGet, jsHas, canonIdx,
        isPlainObject, isArray, List.lookup]
    rw [h]
    decide
  · rfl

/-- C6 (amended): an entry of the ChangeSet exists for key `k` exactly
when `k` is among the iterated keys and the per-key decision yields one:
a (possibly empty) nested ChangeSet whenever both sides are composite —
even when the composite field is unchanged — a `true` (leaf) entry when a
non-composite pair differs, and no entry when a non-composite pair is
equal. -/
theorem claim6_changeset_characterization (oldV newV : Value) (k : String)
    (cv : ChangeVal) :
    (k, cv) ∈ (diffObjects oldV newV).1 ↔
      (k ∈ diffKeys oldV newV ∧ diffEntry oldV newV k = some cv) := by
  rw [diffObjects, diffList_mem]
  simp

/-- C2 (witness): the three-action run whose third action fails rolls
back reverts 2 then 1 and reports the original error. -/
theorem claim2_witness :
    revertEvs (deploy inpC2).trace = (pushedReverts (deploy inpC2).trace).reverse ∧
      (deploy inpC2).outcome = .errOut "boom" :=
  claim2_rollback_reverse_order inpC2 "boom" rfl rfl rfl (by decide) (by decide)

/-- C3 (counterexample): when the first-popped revert function (id 2)
throws, the original action error "boom" is only logged: the run reports
the rollback error instead, and revert 1 — still in the stack — is never
invoked.  This refutes that rollback errors are non-fatal to the sweep
and that the original error is what the run reports. -/
theorem claim3_counterexample :
    Ev.errLog "boom" ∈ (deploy inpC3).trace ∧
      (deploy inpC3).outcome = .errOut "rollback boom" ∧
      revertEvs (deploy inpC3).trace = [2] := by
  decide

/-- C3 (witness): the amended behavior at the concrete failing run. -/
theorem claim3_witness :
    revertEvs (deploy inpC3).trace = [] ++ [2] ∧
      (deploy inpC3).outcome = .errOut "rollback boom" :=
  claim3_revert_error_aborts_sweep inpC3 "boom" "rollback boom" [] [1] 2
    rfl rfl rfl (by decide) (by decide) (by decide) (by decide)

/-- C7 (code bug): the run whose single declared target is unchanged —
total kills, updates and spawns zero — never reports "no action" and
never terminates: the "Nothing changed" early return skips the
cursor-advance block, the `deploying` promise is never resolved, and the
run hangs right after creating the lock (so the no-action report at lines
190-196 is unreachable and the store is untouched). -/
theorem claim7_noop_run_hangs :
    deploy inpC7 = { trace := [Ev.lockCreate], outcome := .hang, lockHeld := true } ∧
      Ev.noActionInfo ∉ (deploy inpC7).trace ∧
      storeWrites (deploy inpC7).trace = [] ∧
      actionEvents (deploy inpC7).trace = [] := by
  have hdiff : diffObjects (Value.vObj [("name", Value.vStr "x"), ("size", Value.vNum 1)])
      (Value.vObj [("name", Value.vStr "x"), ("size", Value.vNum 1)]) = ([], false) := by
    simp [diffObjects, diffList, diffKeys, jsKeys, jsGet, jsHas, canonIdx, isPlainObject,
      isArray, List.lookup]
  have hrun : deploy inpC7 = { trace := [Ev.lockCreate], outcome := .hang, lockHeld := true } := by
    simp [deploy, runBody, applyAll, applyOne, findSavedTarget, initSt, inpC7, okPlugin,
      applyPullTo, toObjectHash, tgtX, hdiff, List.lookup, List.find?, List.enum,
      DeclKind.oid, List.set, List.getD]
  refine ⟨hrun, ?_, ?_, ?_⟩ <;> rw [hrun] <;> decide

/-- C8 (code bug): a successful first run writes the snapshot
`{web: [x]}`; the second run with that snapshot as prior store and the
same declaration finds the target unchanged and hangs — it performs no
spawn, update or kill, but it never completes (and never reports), so
reconciliation is not idempotent as a terminating no-op. -/
theorem claim8_second_run_hangs :
    (deploy inp8a).outcome = .success ∧
      storeWrites (deploy inp8a).trace =
        [[("web", { hook := "web", targets := [SnapVal.val tgtX] })]] ∧
      inpC7.store = [("web", { hook := "web", targets := [tgtX] })] ∧
      (deploy inpC7).outcome = .hang ∧
      actionEvents (deploy inpC7).trace = [] := by
  have hdiff : diffObjects (Value.vObj [("name", Value.vStr "x"), ("size", Value.vNum 1)])
      (Value.vObj [("name", Value.vStr "x"), ("size", Value.vNum 1)]) = ([], false) := by
    simp [diffObjects, diffList, diffKeys, jsKeys, jsGet, jsHas, canonIdx, isPlainObject,
      isArray, List.lookup]
  have hrun : deploy inpC7 = { trace := [Ev.lockCreate], outcome := .hang, lockHeld := true } := by
    simp [deploy, runBody, applyAll, applyOne, findSavedTarget, initSt, inpC7, okPlugin,
      applyPullTo, toObjectHash, tgtX, hdiff, List.lookup, List.find?, List.enum,
      DeclKind.oid, List.set, List.getD]
  refine ⟨by decide, by decide, rfl, ?_, ?_⟩ <;> rw [hrun] <;> decide

/-- C9: a non-dry run finding the lock artifact already present (with a
clean working tree) aborts with the distinct "already in progress" error
before any reconciliation event; every run that created the lock and
returns (normally or with an error) has deleted it; and every run that
passes the preconditions creates it. -/
theorem claim9_lock_guard (inp : Inp) :
    (inp.dryRun = false → inp.lockExists = true → inp.gitClean = true →
      (deploy inp).outcome = .errOut "A deployment is already in progress" ∧
        (deploy inp).trace = []) ∧
    ((deploy inp).outcome ≠ .hang → Ev.lockCreate ∈ (deploy inp).trace →
      (deploy inp).lockHeld = false) ∧
    (inp.dryRun = true ∨ (inp.gitClean = true ∧ inp.lockExists = false) →
      Ev.lockCreate ∈ (deploy inp).trace) := by
  refine ⟨?_, ?_, ?_⟩
  · intro hdry hlock hg
    unfold deploy
    rw [hdry, hlock, hg]
    simp
  · intro hnh hmem
    unfold deploy at hnh hmem ⊢
    by_cases h1 : (!inp.dryRun && !inp.gitClean) = true
    · rw [if_pos h1] at hmem
      simp at hmem
    · rw [if_neg h1] at hnh hmem ⊢
      by_cases h2 : (!inp.dryRun && inp.lockExists) = true
      · rw [if_pos h2] at hmem
        simp at hmem
      · rw [if_neg h2] at hnh ⊢
        cases hout : (runBody inp).2 with
        | bodyHang => simp only [hout] at hnh; simp at hnh
        | bodyErr e =>
          simp only [hout]
          by_cases hdr : inp.dryRun = true <;> simp [hdr]
        | noActionOut => simp only [hout]
        | completed =>
          simp only [hout]
          by_cases hdr : inp.dryRun = true <;> simp [hdr]
  · intro hpre
    unfold deploy
    have h1 : (!inp.dryRun && !inp.gitClean) = false := by
      rcases hpre with h | ⟨hg, _⟩
      · simp [h]
      · simp [hg]
    have h2 : (!inp.dryRun && inp.lockExists) = false := by
      rcases hpre with h | ⟨_, hl⟩
      · simp [h]
      · simp [hl]
    rw [h1, h2]
    simp only [Bool.false_eq_true, if_false]
    cases hout : (runBody inp).2 <;> simp [hout] <;>
      by_cases hdr : inp.dryRun = true <;> simp [hdr]

/-- C9 (witness): the lock-present abort and the create/delete behavior
at concrete runs. -/
theorem claim9_witness :
    ((deploy inpC9).outcome = .errOut "A deployment is already in progress" ∧
      (deploy inpC9).trace = []) ∧
    (deploy inpC1).lockHeld = false ∧
    Ev.lockCreate ∈ (deploy inpC1).trace :=
  ⟨(claim9_lock_guard inpC9).1 rfl rfl rfl,
   (claim9_lock_guard inpC1).2.1 (by decide) (by decide),
   (claim9_lock_guard inpC1).2.2 (Or.inl rfl)⟩

/-- The body behavior of the C4 witness scenario: every target's action
body reaches the cursor-advance block. -/
def bodyW : Nat → BodyRes := fun _ => BodyRes.advance

def qc1 : QConf := { declared := 1, cursor := 0, resolved := [], trace := [], halted := false }

def qc2 : QConf := { declared := 2, cursor := 0, resolved := [], trace := [], halted := false }

def qc3 : QConf := { declared := 2, cursor := 0, resolved := [1], trace := [], halted := false }

def qc4 : QConf := { declared := 2, cursor := 0, resolved := [0, 1], trace := [], halted := false }

def qc5 : QConf := { declared := 2, cursor := 1, resolved := [0, 1], trace := [0], halted := false }

def qc6 : QConf := { declared := 2, cursor := 2, resolved := [0, 1], trace := [0, 1], halted := false }

/-- C4 (witness): targets A and B are declared, B's promise resolves
before A's, and the actions still run as A then B. -/
theorem claim4_witness :
    qc6.trace = List.range qc6.cursor ++ (if qc6.halted then [qc6.cursor] else []) := by
  have s1 : QStep bodyW QInit qc1 := QStep.declare QInit
  have s2 : QStep bodyW qc1 qc2 := QStep.declare qc1
  have s3 : QStep bodyW qc2 qc3 := QStep.resolve qc2 1 (by decide)
  have s4 : QStep bodyW qc3 qc4 := QStep.resolve qc3 0 (by decide)
  have s5 : QStep bodyW qc4 qc5 := QStep.runAdvance qc4 rfl (by decide) (by decide) rfl
  have s6 : QStep bodyW qc5 qc6 := QStep.runAdvance qc5 rfl (by decide) (by decide) rfl
  have hreach : QReach bodyW qc6 :=
    .tail (.tail (.tail (.tail (.tail (.tail .refl s1) s2) s3) s4) s5) s6
  exact claim4_dispatch_in_declaration_order bodyW qc6 hreach

/-! ## C10: the persisted snapshot groups the declared values -/

/-- The targets the snapshot records for one provider name (the `targets`
array of `newTargetCache[name]`, empty when no declaration used the name). -/
def snapTargets (snap : Snapshot) (name : String) : List SnapVal :=
  match snap.lookup name with
  | some entry => entry.targets
  | none => []

/-- The value held by a declaration's target object after the pull merge
of `addTarget` (lines 105-111): the declared object with the pulled
fields assigned in place. -/
def pulledValue (plugins : List PluginM) (heap : List Value) (d : DeclM) : Value :=
  match plugins.find? (fun p => p.name == d.hook) with
  | some p => applyPullTo p (heap.getD d.kind.oid .vUndef)
  | none => (heap.getD d.kind.oid .vUndef)

/-- Modelled from the spec sentence under check: what C10 says the
snapshot should hold for a declaration — the declared plain object with
its pulled fields included, but the unresolved promise object itself for
an asynchronous declaration. -/
def expectedSnapVal (inp : Inp) (d : DeclM) : SnapVal :=
  match d.kind with
  | .plain _ => .val (pulledValue inp.plugins inp.heap d)
  | .promiseV oid => .promiseObj oid

theorem getD_set_ne (l : List Value) (i j : Nat) (v : Value) (h : j ≠ i) :
    (l.set i v).getD j .vUndef = l.getD j .vUndef := by
  simp [List.getD, List.getElem?_set_ne (Ne.symm h)]

theorem getD_set_self (l : List Value) (i : Nat) (v : Value) (h : i < l.length) :
    (l.set i v).getD i .vUndef = v := by
  simp [List.getD, List.getElem?_set_self h]

theorem beq_false_of_ne {a b : String} (h : ¬a = b) : (a == b) = false :=
  beq_eq_false_iff_ne.mpr h

theorem pulledValue_congr (ps : List PluginM) (h1 h2 : List Value) (d : DeclM)
    (h : h1.getD d.kind.oid .vUndef = h2.getD d.kind.oid .vUndef) :
    pulledValue ps h1 d = pulledValue ps h2 d := by
  unfold pulledValue
  rw [h]

theorem addRevertFn_updatedTargets (dr : Bool) (st : St) (r : Option Nat)
    (p : PluginM) (a : String) :
    (addRevertFn dr st r p a).updatedTargets = st.updatedTargets := by
  cases r with
  | some id => rfl
  | none =>
    simp only [addRevertFn]
    split <;> rfl

theorem addRevertFn_addedTargets (dr : Bool) (st : St) (r : Option Nat)
    (p : PluginM) (a : String) :
    (addRevertFn dr st r p a).addedTargets = st.addedTargets := by
  cases r with
  | some id => rfl
  | none =>
    simp only [addRevertFn]
    split <;> rfl

theorem addRevertFn_heap (dr : Bool) (st : St) (r : Option Nat)
    (p : PluginM) (a : String) :
    (addRevertFn dr st r p a).heap = st.heap := by
  cases r with
  | some id => rfl
  | none =>
    simp only [addRevertFn]
    split <;> rfl

theorem emitAction_updatedTargets (dr : Bool) (st : St) (ev : Ev) (r : Option Nat)
    (p : PluginM) (a : String) :
    (emitAction dr st ev r p a).updatedTargets = st.updatedTargets := by
  simp only [emitAction, addRevertFn_updatedTargets]

theorem emitAction_addedTargets (dr : Bool) (st : St) (ev : Ev) (r : Option Nat)
    (p : PluginM) (a : String) :
    (emitAction dr st ev r p a).addedTargets = st.addedTargets := by
  simp only [emitAction, addRevertFn_addedTargets]

theorem emitAction_heap (dr : Bool) (st : St) (ev : Ev) (r : Option Nat)
    (p : PluginM) (a : String) :
    (emitAction dr st ev r p a).heap = st.heap := by
  simp only [emitAction, addRevertFn_heap]

/-- A declaration that reached the cursor-advance block pushed exactly one
target onto `updatedTargets` or `addedTargets`. -/
theorem applyOne_advanced_counts (dr : Bool) (store : Store) (ps : List PluginM)
    (st : St) (d : DeclM) (h : (applyOne dr store ps st d).2 = StepOut.advanced) :
    (applyOne dr store ps st d).1.updatedTargets.length +
      (applyOne dr store ps st d).1.addedTargets.length =
      st.updatedTargets.length + st.addedTargets.length + 1 := by
  cases hfind : ps.find? (fun p => p.name == d.hook) with
  | none =>
    simp only [applyOne, hfind] at h
    exact StepOut.noConfusion h
  | some plugin =>
    cases hsaved : findSavedTarget store plugin
        (toObjectHash (plugin.identify (applyPullTo plugin (st.heap.getD d.kind.oid .vUndef)))) with
    | error e =>
      simp only [applyOne, hfind, hsaved] at h
      exact StepOut.noConfusion h
    | ok osaved =>
      cases osaved with
      | none =>
        cases hspawn : plugin.spawn (applyPullTo plugin (st.heap.getD d.kind.oid .vUndef)) with
        | ok r =>
          simp only [applyOne, hfind, hsaved, hspawn]
          simp only [emitAction_updatedTargets, emitAction_addedTargets, List.length_append,
            List.length_cons, List.length_nil]
          omega
        | err e =>
          simp only [applyOne, hfind, hsaved, hspawn] at h
          exact StepOut.noConfusion h
      | some isaved =>
        obtain ⟨i, savedTarget⟩ := isaved
        by_cases hch : (diffObjects savedTarget (applyPullTo plugin (st.heap.getD d.kind.oid .vUndef))).2 = true
        · by_cases hup : plugin.hasUpdate = true
          · cases hupd : plugin.update (applyPullTo plugin (st.heap.getD d.kind.oid .vUndef))
                (diffObjects savedTarget (applyPullTo plugin (st.heap.getD d.kind.oid .vUndef))).1 with
            | ok r =>
              simp only [applyOne, hfind, hsaved, hch, hup, Bool.not_true, Bool.false_eq_true,
                if_false, if_true, hupd]
              simp only [emitAction_updatedTargets, emitAction_addedTargets, List.length_append,
                List.length_cons, List.length_nil]
              omega
            | err e =>
              simp only [applyOne, hfind, hsaved, hch, hup, Bool.not_true, Bool.false_eq_true,
                if_false, if_true, hupd] at h
              exact StepOut.noConfusion h
          · rw [Bool.not_eq_true] at hup
            cases hkill : plugin.kill savedTarget with
            | ok r =>
              cases hspawn : plugin.spawn (applyPullTo plugin (st.heap.getD d.kind.oid .vUndef)) with
              | ok r2 =>
                simp only [applyOne, hfind, hsaved, hch, hup, Bool.not_true, Bool.false_eq_true,
                  if_false, if_true, hkill, hspawn]
                simp only [emitAction_updatedTargets, emitAction_addedTargets, List.length_append,
                  List.length_cons, List.length_nil]
                omega
              | err e =>
                simp only [applyOne, hfind, hsaved, hch, hup, Bool.not_true, Bool.false_eq_true,
                  if_false, if_true, hkill, hspawn] at h
                exact StepOut.noConfusion h
            | err e =>
              simp only [applyOne, hfind, hsaved, hch, hup, Bool.not_true, Bool.false_eq_true,
                if_false, if_true, hkill] at h
              exact StepOut.noConfusion h
        · rw [Bool.not_eq_true] at hch
          simp only [applyOne, hfind, hsaved, hch, Bool.not_false, if_true] at h
          exact StepOut.noConfusion h

/-- A declaration that reached the cursor-advance block left the heap
with its own object overwritten by the pull merge. -/
theorem applyOne_advanced_heap (dr : Bool) (store : Store) (ps : List PluginM)
    (st : St) (d : DeclM) (h : (applyOne dr store ps st d).2 = StepOut.advanced) :
    (applyOne dr store ps st d).1.heap =
      st.heap.set d.kind.oid (pulledValue ps st.heap d) := by
  have hpull : pulledValue ps st.heap d =
      match ps.find? (fun p => p.name == d.hook) with
      | some p => applyPullTo p (st.heap.getD d.kind.oid .vUndef)
      | none => st.heap.getD d.kind.oid .vUndef := rfl
  cases hfind : ps.find? (fun p => p.name == d.hook) with
  | none =>
    simp only [applyOne, hfind] at h
    exact StepOut.noConfusion h
  | some plugin =>
    rw [hfind] at hpull
    cases hsaved : findSavedTarget store plugin
        (toObjectHash (plugin.identify (applyPullTo plugin (st.heap.getD d.kind.oid .vUndef)))) with
    | error e =>
      simp only [applyOne, hfind, hsaved] at h
      exact StepOut.noConfusion h
    | ok osaved =>
      cases osaved with
      | none =>
        cases hspawn : plugin.spawn (applyPullTo plugin (st.heap.getD d.kind.oid .vUndef)) with
        | ok r =>
          simp only [applyOne, hfind, hsaved, hspawn]
          simp only [emitAction_heap, hpull]
        | err e =>
          simp only [applyOne, hfind, hsaved, hspawn] at h
          exact StepOut.noConfusion h
      | some isaved =>
        obtain ⟨i, savedTarget⟩ := isaved
        by_cases hch : (diffObjects savedTarget (applyPullTo plugin (st.heap.getD d.kind.oid .vUndef))).2 = true
        · by_cases hup : plugin.hasUpdate = true
          · cases hupd : plugin.update (applyPullTo plugin (st.heap.getD d.kind.oid .vUndef))
                (diffObjects savedTarget (applyPullTo plugin (st.heap.getD d.kind.oid .vUndef))).1 with
            | ok r =>
              simp only [applyOne, hfind, hsaved, hch, hup, Bool.not_true, Bool.false_eq_true,
                if_false, if_true, hupd]
              simp only [emitAction_heap, hpull]
            | err e =>
              simp only [applyOne, hfind, hsaved, hch, hup, Bool.not_true, Bool.false_eq_true,
                if_false, if_true, hupd] at h
              exact StepOut.noConfusion h
          · rw [Bool.not_eq_true] at hup
            cases hkill : plugin.kill savedTarget with
            | ok r =>
              cases hspawn : plugin.spawn (applyPullTo plugin (st.heap.getD d.kind.oid .vUndef)) with
              | ok r2 =>
                simp only [applyOne, hfind, hsaved, hch, hup, Bool.not_true, Bool.false_eq_true,
                  if_false, if_true, hkill, hspawn]
                simp only [emitAction_heap, hpull]
              | err e =>
                simp only [applyOne, hfind, hsaved, hch, hup, Bool.not_true, Bool.false_eq_true,
                  if_false, if_true, hkill, hspawn] at h
                exact StepOut.noConfusion h
            | err e =>
              simp only [applyOne, hfind, hsaved, hch, hup, Bool.not_true, Bool.false_eq_true,
                if_false, if_true, hkill] at h
              exact StepOut.noConfusion h
        · rw [Bool.not_eq_true] at hch
          simp only [applyOne, hfind, hsaved, hch, Bool.not_false, if_true] at h
          exact StepOut.noConfusion h

/-- `addTarget` only writes the heap at its own declaration's object. -/
theorem applyOne_heap_frame (dr : Bool) (store : Store) (ps : List PluginM)
    (st : St) (d : DeclM) (j : Nat) (hj : j ≠ d.kind.oid) :
    (applyOne dr store ps st d).1.heap.getD j .vUndef = st.heap.getD j .vUndef := by
  have hset : ∀ v : Value,
      (st.heap.set d.kind.oid v).getD j .vUndef = st.heap.getD j .vUndef :=
    fun v => getD_set_ne _ _ _ _ hj
  cases hfind : ps.find? (fun p => p.name == d.hook) with
  | none => simp only [applyOne, hfind]
  | some plugin =>
    cases hsaved : findSavedTarget store plugin
        (toObjectHash (plugin.identify (applyPullTo plugin (st.heap.getD d.kind.oid .vUndef)))) with
    | error e =>
      simp only [applyOne, hfind, hsaved]
      exact hset _
    | ok osaved =>
      cases osaved with
      | none =>
        cases hspawn : plugin.spawn (applyPullTo plugin (st.heap.getD d.kind.oid .vUndef)) with
        | ok r =>
          simp only [applyOne, hfind, hsaved, hspawn, emitAction_heap]
          exact hset _
        | err e =>
          simp only [applyOne, hfind, hsaved, hspawn]
          exact hset _
      | some isaved =>
        obtain ⟨i, savedTarget⟩ := isaved
        by_cases hch : (diffObjects savedTarget (applyPullTo plugin (st.heap.getD d.kind.oid .vUndef))).2 = true
        · by_cases hup : plugin.hasUpdate = true
          · cases hupd : plugin.update (applyPullTo plugin (st.heap.getD d.kind.oid .vUndef))
                (diffObjects savedTarget (applyPullTo plugin (st.heap.getD d.kind.oid .vUndef))).1 with
            | ok r =>
              simp only [applyOne, hfind, hsaved, hch, hup, Bool.not_true, Bool.false_eq_true,
                if_false, if_true, hupd, emitAction_heap]
              exact hset _
            | err e =>
              simp only [applyOne, hfind, hsaved, hch, hup, Bool.not_true, Bool.false_eq_true,
                if_false, if_true, hupd]
              exact hset _
          · rw [Bool.not_eq_true] at hup
            cases hkill : plugin.kill savedTarget with
            | ok r =>
              cases hspawn : plugin.spawn (applyPullTo plugin (st.heap.getD d.kind.oid .vUndef)) with
              | ok r2 =>
                simp only [applyOne, hfind, hsaved, hch, hup, Bool.not_true, Bool.false_eq_true,
                  if_false, if_true, hkill, hspawn, emitAction_heap]
                exact hset _
              | err e =>
                simp only [applyOne, hfind, hsaved, hch, hup, Bool.not_true, Bool.false_eq_true,
                  if_false, if_true, hkill, hspawn, emitAction_heap]
                exact hset _
            | err e =>
              simp only [applyOne, hfind, hsaved, hch, hup, Bool.not_true, Bool.false_eq_true,
                if_false, if_true, hkill]
              exact hset _
        · rw [Bool.not_eq_true] at hch
          simp only [applyOne, hfind, hsaved, hch, Bool.not_false, if_true]
          exact hset _

/-- `addTarget` never changes the number of declared objects. -/
theorem applyOne_heap_length (dr : Bool) (store : Store) (ps : List PluginM)
    (st : St) (d : DeclM) :
    (applyOne dr store ps st d).1.heap.length = st.heap.length := by
  cases hfind : ps.find? (fun p => p.name == d.hook) with
  | none => simp only [applyOne, hfind]
  | some plugin =>
    cases hsaved : findSavedTarget store plugin
        (toObjectHash (plugin.identify (applyPullTo plugin (st.heap.getD d.kind.oid .vUndef)))) with
    | error e =>
      simp only [applyOne, hfind, hsaved]
      simp only [List.length_set]
    | ok osaved =>
      cases osaved with
      | none =>
        cases hspawn : plugin.spawn (applyPullTo plugin (st.heap.getD d.kind.oid .vUndef)) with
        | ok r =>
          simp only [applyOne, hfind, hsaved, hspawn, emitAction_heap]
          simp only [List.length_set]
        | err e =>
          simp only [applyOne, hfind, hsaved, hspawn]
          simp only [List.length_set]
      | some isaved =>
        obtain ⟨i, savedTarget⟩ := isaved
        by_cases hch : (diffObjects savedTarget (applyPullTo plugin (st.heap.getD d.kind.oid .vUndef))).2 = true
        · by_cases hup : plugin.hasUpdate = true
          · cases hupd : plugin.update (applyPullTo plugin (st.heap.getD d.kind.oid .vUndef))
                (diffObjects savedTarget (applyPullTo plugin (st.heap.getD d.kind.oid .vUndef))).1 with
            | ok r =>
              simp only [applyOne, hfind, hsaved, hch, hup, Bool.not_true, Bool.false_eq_true,
                if_false, if_true, hupd, emitAction_heap]
              simp only [List.length_set]
            | err e =>
              simp only [applyOne, hfind, hsaved, hch, hup, Bool.not_true, Bool.false_eq_true,
                if_false, if_true, hupd]
              simp only [List.length_set]
          · rw [Bool.not_eq_true] at hup
            cases hkill : plugin.kill savedTarget with
            | ok r =>
              cases hspawn : plugin.spawn (applyPullTo plugin (st.heap.getD d.kind.oid .vUndef)) with
              | ok r2 =>
                simp only [applyOne, hfind, hsaved, hch, hup, Bool.not_true, Bool.false_eq_true,
                  if_false, if_true, hkill, hspawn, emitAction_heap]
                simp only [List.length_set]
              | err e =>
                simp only [applyOne, hfind, hsaved, hch, hup, Bool.not_true, Bool.false_eq_true,
                  if_false, if_true, hkill, hspawn, emitAction_heap]
                simp only [List.length_set]
            | err e =>
              simp only [applyOne, hfind, hsaved, hch, hup, Bool.not_true, Bool.false_eq_true,
                if_false, if_true, hkill]
              simp only [List.length_set]
        · rw [Bool.not_eq_true] at hch
          simp only [applyOne, hfind, hsaved, hch, Bool.not_false, if_true]
          simp only [List.length_set]

/-- Draining the whole queue pushes one target per declaration. -/
theorem applyAll_counts (dr : Bool) (store : Store) (ps : List PluginM) :
    ∀ (ds : List DeclM) (st : St), (applyAll dr store ps st ds).2 = ApplyOut.drained →
      (applyAll dr store ps st ds).1.updatedTargets.length +
        (applyAll dr store ps st ds).1.addedTargets.length =
        st.updatedTargets.length + st.addedTargets.length + ds.length
  | [], st => by
    intro _
    simp [applyAll]
  | d :: rest, st => by
    rw [applyAll]
    cases h1 : applyOne dr store ps st d with
    | mk st2 out =>
      cases out with
      | unchangedHalt =>
        intro hdr
        simp at hdr
      | failed e =>
        intro hdr
        simp at hdr
      | advanced =>
        intro hdr
        have hdr2 : (applyAll dr store ps st2 rest).2 = ApplyOut.drained := hdr
        have hcnt : st2.updatedTargets.length + st2.addedTargets.length =
            st.updatedTargets.length + st.addedTargets.length + 1 := by
          have hc := applyOne_advanced_counts dr store ps st d (by rw [h1])
          rw [h1] at hc
          exact hc
        have ih := applyAll_counts dr store ps rest st2 hdr2
        show (applyAll dr store ps st2 rest).1.updatedTargets.length +
            (applyAll dr store ps st2 rest).1.addedTargets.length = _
        rw [ih]
        simp only [List.length_cons]
        omega

/-- The apply phase only writes the heap at the declared objects. -/
theorem applyAll_heap_frame (dr : Bool) (store : Store) (ps : List PluginM) :
    ∀ (ds : List DeclM) (st : St) (j : Nat), (∀ e ∈ ds, j ≠ e.kind.oid) →
      (applyAll dr store ps st ds).1.heap.getD j .vUndef = st.heap.getD j .vUndef
  | [], st => by
    intro j _
    rfl
  | d :: rest, st => by
    intro j hj
    rw [applyAll]
    cases h1 : applyOne dr store ps st d with
    | mk st2 out =>
      have hfr1 : st2.heap.getD j Value.vUndef = st.heap.getD j Value.vUndef := by
        have hf := applyOne_heap_frame dr store ps st d j (hj d (List.mem_cons_self d rest))
        rw [h1] at hf
        exact hf
      cases out with
      | advanced =>
        have ih := applyAll_heap_frame dr store ps rest st2 j
          (fun e he => hj e (List.mem_cons_of_mem d he))
        show (applyAll dr store ps st2 rest).1.heap.getD j Value.vUndef = _
        rw [ih, hfr1]
      | unchangedHalt => exact hfr1
      | failed e => exact hfr1

/-- After a drained apply phase with distinct declared objects that all
exist on the heap, each declaration's object holds exactly its
pull-merged declared value. -/
theorem applyAll_final_heap (dr : Bool) (store : Store) (ps : List PluginM) :
    ∀ (ds : List DeclM) (st : St),
      (applyAll dr store ps st ds).2 = ApplyOut.drained →
      (ds.map (fun e => e.kind.oid)).Nodup →
      (∀ e ∈ ds, e.kind.oid < st.heap.length) →
      ∀ d ∈ ds, (applyAll dr store ps st ds).1.heap.getD d.kind.oid .vUndef =
        pulledValue ps st.heap d
  | [], st => by
    intro _ _ _ d hd
    cases hd
  | d :: rest, st => by
    rw [applyAll]
    cases h1 : applyOne dr store ps st d with
    | mk st2 out =>
      cases out with
      | unchangedHalt =>
        intro hdr
        simp at hdr
      | failed e =>
        intro hdr
        simp at hdr
      | advanced =>
        intro hdr hnd hbound d' hd'
        have hdr2 : (applyAll dr store ps st2 rest).2 = ApplyOut.drained := hdr
        have hheap2 : st2.heap = st.heap.set d.kind.oid (pulledValue ps st.heap d) := by
          have ha := applyOne_advanced_heap dr store ps st d (by rw [h1])
          rw [h1] at ha
          exact ha
        have hlen2 : st2.heap.length = st.heap.length := by
          rw [hheap2, List.length_set]
        simp only [List.map_cons, List.nodup_cons] at hnd
        have hnotin : d.kind.oid ∉ rest.map (fun e => e.kind.oid) := hnd.1
        rcases List.mem_cons.mp hd' with hEq | hmem
        · subst hEq
          have hfr : ∀ e ∈ rest, d'.kind.oid ≠ e.kind.oid := by
            intro e he hc
            apply hnotin
            rw [hc]
            exact List.mem_map_of_mem _ he
          have hframe := applyAll_heap_frame dr store ps rest st2 d'.kind.oid hfr
          show (applyAll dr store ps st2 rest).1.heap.getD d'.kind.oid Value.vUndef =
            pulledValue ps st.heap d'
          rw [hframe, hheap2]
          rw [getD_set_self]
          exact hbound d' (List.mem_cons_self d' rest)
        · have hb2 : ∀ e ∈ rest, e.kind.oid < st2.heap.length := by
            intro e he
            rw [hlen2]
            exact hbound e (List.mem_cons_of_mem d he)
          have ih := applyAll_final_heap dr store ps rest st2 hdr2 hnd.2 hb2 d' hmem
          show (applyAll dr store ps st2 rest).1.heap.getD d'.kind.oid Value.vUndef =
            pulledValue ps st.heap d'
          rw [ih]
          apply pulledValue_congr
          rw [hheap2]
          apply getD_set_ne
          intro hc
          apply hnotin
          rw [← hc]
          exact List.mem_map_of_mem _ hmem

/-- The kill loop never touches the heap. -/
theorem killPhase_heap (dr : Bool) :
    ∀ (ks : List (PluginM × Value)) (st : St), (killPhase dr st ks).1.heap = st.heap
  | [], st => rfl
  | (plugin, target) :: rest, st => by
    rw [killPhase]
    cases hk : plugin.kill target with
    | ok r => rw [killPhase_heap dr rest _, emitAction_heap]
    | err e => rfl

/-- The "no action" report is unreachable: an empty declaration list hangs
before it, and a drained nonempty one has pushed at least one target. -/
theorem runBody_not_noAction (inp : Inp) : (runBody inp).2 ≠ BodyOut.noActionOut := by
  unfold runBody
  cases happ : applyAll inp.dryRun inp.store inp.plugins (initSt inp.heap) inp.decls with
  | mk st out =>
    cases out with
    | halted => simp
    | failedOut e => simp
    | drained =>
      by_cases hempty : inp.decls.isEmpty = true
      · simp [hempty]
      · simp only [hempty, Bool.false_eq_true, if_false]
        cases hkt : getKillableTargets inp.plugins st.reused inp.store with
        | error e => simp
        | ok killedTargets =>
          have hc := applyAll_counts inp.dryRun inp.store inp.plugins inp.decls
            (initSt inp.heap) (by rw [happ])
          rw [happ] at hc
          have hlen : inp.decls.length ≠ 0 := by
            cases hd : inp.decls with
            | nil => rw [hd] at hempty; simp at hempty
            | cons a l => simp [hd]
          have hnum : ¬(killedTargets.length + st.updatedTargets.length +
              st.addedTargets.length = 0) := by
            simp only [initSt, List.length_nil] at hc
            omega
          simp only [if_neg hnum]
          cases hkp : killPhase inp.dryRun st killedTargets with
          | mk st2 oerr => cases oerr <;> simp

/-- A try block that completed drained the whole declaration queue, and
its final heap is the apply phase's (the kill loop does not write it). -/
theorem runBody_completed_heap (inp : Inp) (h : (runBody inp).2 = BodyOut.completed) :
    (applyAll inp.dryRun inp.store inp.plugins (initSt inp.heap) inp.decls).2 =
        ApplyOut.drained ∧
      (runBody inp).1.heap =
        (applyAll inp.dryRun inp.store inp.plugins (initSt inp.heap) inp.decls).1.heap := by
  unfold runBody at h ⊢
  cases happ : applyAll inp.dryRun inp.store inp.plugins (initSt inp.heap) inp.decls with
  | mk st out =>
    simp only [happ] at h
    cases out with
    | halted => simp at h
    | failedOut e => simp at h
    | drained =>
      refine ⟨rfl, ?_⟩
      by_cases hempty : inp.decls.isEmpty = true
      · simp [hempty] at h
      · simp only [hempty, Bool.false_eq_true, if_false] at h ⊢
        cases hkt : getKillableTargets inp.plugins st.reused inp.store with
        | error e => simp only [hkt] at h; simp at h
        | ok ks =>
          simp only [hkt] at h ⊢
          by_cases hnum : ks.length + st.updatedTargets.length + st.addedTargets.length = 0
          · simp only [if_pos hnum] at h; simp at h
          · simp only [if_neg hnum] at h ⊢
            cases hkp : killPhase inp.dryRun st ks with
            | mk st2 oerr =>
              simp only [hkp] at h ⊢
              cases oerr with
              | some e => simp at h
              | none =>
                have hkh := killPhase_heap inp.dryRun ks st
                rw [hkp] at hkh
                exact hkh

/-- A successful non-dry run (preconditions met) completed its try block:
hang, error and the unreachable "no action" report are all ruled out. -/
theorem deploy_success_completed (inp : Inp)
    (hdry : inp.dryRun = false) (hg : inp.gitClean = true) (hl : inp.lockExists = false)
    (hs : (deploy inp).outcome = Outcome.success) :
    (runBody inp).2 = BodyOut.completed := by
  unfold deploy at hs
  rw [hdry, hg, hl] at hs
  simp only [Bool.not_false, Bool.not_true, Bool.and_false, Bool.false_eq_true,
    if_false, Bool.and_true] at hs
  cases hout : (runBody inp).2 with
  | completed => rfl
  | bodyHang =>
    simp only [hout] at hs
    simp at hs
  | noActionOut => exact absurd hout (runBody_not_noAction inp)
  | bodyErr e =>
    simp only [hout, hdry, Bool.false_eq_true, if_false] at hs
    simp at hs

/-- The shape of a completed non-dry run: the try-block trace, the lock
deletion, and the snapshot write. -/
theorem deploy_wet_completed (inp : Inp)
    (hdry : inp.dryRun = false) (hg : inp.gitClean = true)
    (hl : inp.lockExists = false) (hcomp : (runBody inp).2 = BodyOut.completed) :
    deploy inp =
      { trace := [Ev.lockCreate] ++ (runBody inp).1.trace ++
          [Ev.lockDelete, Ev.storeWrite (buildSnapshot (runBody inp).1.heap inp.decls)],
        outcome := Outcome.success, lockHeld := false } := by
  unfold deploy
  rw [hdry, hg, hl]
  simp only [Bool.not_false, Bool.not_true, Bool.and_false, Bool.false_eq_true, if_false,
    Bool.and_true, hcomp]

theorem storeWrites_close (s : Snapshot) :
    storeWrites [Ev.lockDelete, Ev.storeWrite s] = [s] := rfl

theorem snapTargets_nil (name : String) : snapTargets [] name = [] := rfl

theorem snapTargets_cons (n1 : String) (entry : SnapEntry) (rest : Snapshot)
    (name : String) :
    snapTargets ((n1, entry) :: rest) name =
      if name == n1 then entry.targets else snapTargets rest name := by
  cases hbe : name == n1 <;> simp [snapTargets, List.lookup, hbe]

/-- Pushing one target onto the grouped cache appends it to its own
provider's list and leaves every other provider's list unchanged. -/
theorem snapTargets_insert (snap : Snapshot) (n h name : String) (sv : SnapVal) :
    snapTargets (snapInsert snap n h sv) name =
      snapTargets snap name ++ (if n = name then [sv] else []) := by
  induction snap with
  | nil =>
    rw [snapInsert, snapTargets_cons, snapTargets_nil]
    by_cases hn : n = name
    · subst hn
      simp
    · have hb : ¬(name == n) = true := by
        simp only [beq_iff_eq]
        exact fun hc => hn hc.symm
      rw [if_neg hb, if_neg hn]
      rfl
  | cons p rest ih =>
    obtain ⟨n1, entry⟩ := p
    rw [snapInsert]
    by_cases h1 : n1 = n
    · rw [if_pos h1]
      subst h1
      rw [snapTargets_cons, snapTargets_cons]
      by_cases h2 : (name == n1) = true
      · rw [if_pos h2, if_pos h2, if_pos (beq_iff_eq.mp h2).symm]
      · rw [if_neg h2, if_neg h2]
        have hne : ¬ n1 = name := fun hc => h2 (beq_iff_eq.mpr hc.symm)
        rw [if_neg hne, List.append_nil]
    · rw [if_neg h1, snapTargets_cons, snapTargets_cons]
      by_cases h2 : (name == n1) = true
      · rw [if_pos h2, if_pos h2]
        have hname : name = n1 := beq_iff_eq.mp h2
        have hne : ¬ n = name := by
          intro hc
          rw [hname] at hc
          exact h1 hc.symm
        rw [if_neg hne, List.append_nil]
      · rw [if_neg h2, if_neg h2, ih]

theorem snapTargets_foldl (heap : List Value) :
    ∀ (decls : List DeclM) (snap : Snapshot) (name : String),
      snapTargets
          (decls.foldl (fun s d => snapInsert s d.hook d.hook (snapValOf heap d)) snap)
          name =
        snapTargets snap name ++
          (decls.filter (fun d => d.hook == name)).map (snapValOf heap)
  | [], snap, name => by simp
  | d :: rest, snap, name => by
    rw [List.foldl_cons, snapTargets_foldl heap rest _ name, snapTargets_insert,
      List.filter_cons]
    by_cases hd : (d.hook == name) = true
    · rw [if_pos (beq_iff_eq.mp hd), if_pos hd, List.map_cons]
      simp
    · have hne : ¬ d.hook = name := fun hc => hd (beq_iff_eq.mpr hc)
      rw [if_neg hne, if_neg hd, List.append_nil]

/-- The `newTargetCache` groups, per provider name, exactly the snapshot
values of the declarations using that name, in declaration order. -/
theorem buildSnapshot_group (heap : List Value) (decls : List DeclM) (name : String) :
    snapTargets (buildSnapshot heap decls) name =
      (decls.filter (fun d => d.hook == name)).map (snapValOf heap) := by
  rw [buildSnapshot, snapTargets_foldl, snapTargets_nil, List.nil_append]

/-- C10: when a non-dry run (clean tree, no lock) succeeds, with distinct
declared objects all present on the heap, the snapshot it persists to the
real Target Store groups, per provider name, exactly the values
originally passed to the declarations using that name, in declaration
order: a plain declaration is written with its pulled fields merged in
place, while a promise declaration is written as the unresolved promise
object itself rather than the resolved target record. -/
theorem claim10_snapshot_groups_declared_values (inp : Inp)
    (hdry : inp.dryRun = false) (hg : inp.gitClean = true)
    (hl : inp.lockExists = false)
    (hsucc : (deploy inp).outcome = Outcome.success)
    (hnd : (inp.decls.map (fun e => e.kind.oid)).Nodup)
    (hbound : ∀ d ∈ inp.decls, d.kind.oid < inp.heap.length) :
    storeWrites (deploy inp).trace =
        [buildSnapshot (runBody inp).1.heap inp.decls] ∧
      ∀ name, snapTargets (buildSnapshot (runBody inp).1.heap inp.decls) name =
        (inp.decls.filter (fun d => d.hook == name)).map (expectedSnapVal inp) := by
  have hcomp := deploy_success_completed inp hdry hg hl hsucc
  obtain ⟨hdrain, hheap⟩ := runBody_completed_heap inp hcomp
  constructor
  · rw [deploy_wet_completed inp hdry hg hl hcomp]
    have hbody := (runBody_emits inp).1
    simp only [storeWrites_append, storeWrites_of_bodyEv hbody, storeWrites_lockCreate,
      storeWrites_close, List.nil_append, List.append_nil]
  · intro name
    rw [buildSnapshot_group]
    apply List.map_congr_left
    intro d hdmem
    have hdd : d ∈ inp.decls := List.mem_of_mem_filter hdmem
    cases hk : d.kind with
    | promiseV oid => simp [snapValOf, expectedSnapVal, hk]
    | plain oid =>
      have hb2 : ∀ e ∈ inp.decls, e.kind.oid < (initSt inp.heap).heap.length := by
        simpa [initSt] using hbound
      have hfin := applyAll_final_heap inp.dryRun inp.store inp.plugins inp.decls
        (initSt inp.heap) hdrain hnd hb2 d hdd
      simp only [snapValOf, expectedSnapVal, hk]
      rw [hheap]
      rw [hk] at hfin
      simp only [DeclKind.oid] at hfin
      rw [hfin]
      rfl

/-- A provider whose pull capability merges a `url` field into every
declared target. -/
def pullPlugin : PluginM :=
  { name := "web"
    pull := some (fun _ => some (Value.vObj [("url", Value.vStr "u")]))
    identify := fun t => t
    hasUpdate := false
    spawn := fun _ => .ok (some 0)
    update := fun _ _ => .ok (some 1)
    kill := fun _ => .ok (some 2) }

/-- A successful non-dry run declaring one plain target and one
still-unresolved promise target under the same provider. -/
def inp10 : Inp :=
  { dryRun := false, gitClean := true, lockExists := false
    store := [("web", { hook := "web", targets := [] })]
    plugins := [pullPlugin]
    heap := [tgtA, tgtB]
    decls := [{ hook := "web", kind := .plain 0 }, { hook := "web", kind := .promiseV 1 }]
    revertBeh := fun _ => none }

/-- C10 (witness): the concrete run writes one snapshot whose `web` group
is the pull-merged plain object followed by the unresolved promise
object, in declaration order. -/
theorem claim10_witness :
    storeWrites (deploy inp10).trace =
        [buildSnapshot (runBody inp10).1.heap inp10.decls] ∧
      snapTargets (buildSnapshot (runBody inp10).1.heap inp10.decls) "web" =
        (inp10.decls.filter (fun d => d.hook == "web")).map (expectedSnapVal inp10) :=
  ⟨(claim10_snapshot_groups_declared_values inp10 rfl rfl rfl (by decide) (by decide)
      (by decide)).1,
   (claim10_snapshot_groups_declared_values inp10 rfl rfl rfl (by decide) (by decide)
      (by decide)).2 "web"⟩

/-- C1 (witness): the amended dry-run guarantee at the concrete dry run. -/
theorem claim1_witness :
    storeWrites (deploy inpC1).trace = [] ∧ revertEvs (deploy inpC1).trace = [] :=
  claim1_dry_run_never_writes_store inpC1 rfl

end Saus
